import Mathlib

/-!
Verification development for the "pnl-traden" trading-ledger application.

The definitions below are shallow embeddings, translated from the JavaScript
sources (`src/unnamed/part_000` is the main application file; `src/site/app.js`
is a second variant of the same application that differs in its upsert
routine).  JavaScript numbers are modelled as rationals (`ℚ`): every numeric
computation the claims touch is a finite sequence of additions, subtractions
and divisions on decimally-parsed inputs, which the rationals reproduce
exactly.  Strings are modelled as Lean `String`s / `List Char`.
-/

namespace PnlTraden

/-! ### Small JavaScript-flavoured helpers -/

/-- Character test used by the embedding for the regex class `[0-9]`. -/
def isDigitChar (c : Char) : Bool := '0' ≤ c && c ≤ '9'

/-- Numeric value of a digit character. -/
def digitVal (c : Char) : Nat := c.toNat - 48

/-- JavaScript `a || b` on strings: the empty string is falsy. -/
def orStr (a b : String) : String := if a = "" then b else a

/-- JavaScript `a || b` on numbers: `0` is falsy (NaN cannot arise in ℚ). -/
def orNum (a b : ℚ) : ℚ := if a = 0 then b else a

/-- Pattern match at the head of a character list. -/
def startsWithPat : List Char → List Char → Bool
  | [], _ => true
  | _ :: _, [] => false
  | a :: as, b :: bs => a == b && startsWithPat as bs

/-- Substring search over character lists. -/
def hasSubstr : List Char → List Char → Bool
  | s, pat => if startsWithPat pat s then true else
      match s with
      | [] => false
      | _ :: rest => hasSubstr rest pat

/-- JavaScript `s.includes(pat)` substring test (for the nonempty patterns the
sources use). -/
def containsStr (s pat : String) : Bool := hasSubstr s.data pat.data

/-- JavaScript `String.prototype.trim` (ASCII whitespace), written so that it
evaluates by kernel reduction. -/
def jsTrim (s : String) : String :=
  String.mk (((s.data.dropWhile (fun c => c.isWhitespace)).reverse.dropWhile
    (fun c => c.isWhitespace)).reverse)

/-- JavaScript `toLowerCase` (ASCII letters, all the sources need). -/
def jsToLower (s : String) : String := String.mk (s.data.map Char.toLower)

/-- JavaScript `toUpperCase` (ASCII letters). -/
def jsToUpper (s : String) : String := String.mk (s.data.map Char.toUpper)

/-- Two-digit zero-padded decimal rendering, as produced by
`String(n).padStart(2, "0")` and by `toISOString` components for `n < 100`. -/
def pad2 (n : Nat) : String := String.mk [Nat.digitChar (n / 10), Nat.digitChar (n % 10)]

/-- Three-digit zero-padded rendering (the milliseconds of `toISOString`). -/
def pad3 (n : Nat) : String :=
  String.mk [Nat.digitChar (n / 100), Nat.digitChar (n / 10 % 10), Nat.digitChar (n % 10)]

/-- Four-digit zero-padded rendering (the year of `toISOString` when the year
lies in `0..9999`). -/
def pad4 (n : Nat) : String := pad2 (n / 100) ++ pad2 (n % 100)

/-- Models JavaScript `String(paddedLeft n 2)`, i.e. `String(x).padStart(2,"0")`
on an arbitrary integer (used for month numbers, which are always `1..12`). -/
def padStart2 (n : Int) : String :=
  let s := toString n
  if s.length < 2 then "0" ++ s else s

/-- Models JavaScript `String(v)` for a numeric value in a template string or
`join`.  The claims proved in this file never depend on the exact digit
rendering of a non-integer value, only on determinism and non-emptiness; an
integer-valued rational renders as its decimal integer, other rationals as
`num/den`. -/
def jsNumStr (q : ℚ) : String :=
  if q.den = 1 then toString q.num else toString q.num ++ "/" ++ toString q.den

/-! ### `parseNumber` (named `parseFlexibleNumber` in the spec)

Source, `src/unnamed/part_000` lines 184–197:

```
function parseNumber(x) \x7b
  if (x === null || x === undefined) return 0;
  if (typeof x === "number") return isFinite(x) ? x : 0;
  let s = String(x).trim();
  if (!s || s === "--") return 0;
  s = s.replace(/^﻿/, "");
  const m = s.match(/ -?[0-9][0-9.,]* /);   (regex shown with added spaces)
  if (!m) return 0;
  let token = m[0];
  if (token.includes(",") && token.includes(".")) token = token.replace(/,/g, "");
  else if (token.includes(",") && !token.includes(".")) token = token.replace(",", ".");
  const n = Number(token);
  return isFinite(n) ? n : 0;
\x7d
```
-/

/-- Tail of a numeric token: the regex continuation class `[0-9.,]*`. -/
def takeNumTail (cs : List Char) : List Char :=
  cs.takeWhile (fun c => isDigitChar c || c == '.' || c == ',')

/-- Leftmost match of the regex `-?[0-9][0-9.,]*`, as `String.prototype.match`
finds it (scan left to right; a match starting at `-` requires the next
character to be a digit). -/
def findToken : List Char → Option (List Char)
  | [] => none
  | c :: cs =>
    if isDigitChar c then some (c :: takeNumTail cs)
    else
      match cs with
      | [] => none
      | d :: rest =>
        if c == '-' && isDigitChar d then some (c :: d :: takeNumTail rest)
        else findToken (d :: rest)

/-- Value of a nonempty digit string. -/
def digitsVal (cs : List Char) : ℚ := cs.foldl (fun acc c => acc * 10 + (digitVal c : ℚ)) 0

/-- Value of a fractional digit string (the part after the decimal point). -/
def fracVal (cs : List Char) : ℚ := cs.foldr (fun c acc => ((digitVal c : ℚ) + acc) / 10) 0

/-- JavaScript `Number(token)` restricted to the character set a token can
contain after the separator rewriting (digits, `.`, `,`, a leading `-`).
`Number` accepts `digits` optionally followed by `.` and further digits;
anything else in this character set (a comma, a second dot) yields NaN,
modelled as `none`. -/
def jsNumberOfDigits (cs : List Char) : Option ℚ :=
  let intPart := cs.takeWhile (fun c => isDigitChar c)
  let rest := cs.dropWhile (fun c => isDigitChar c)
  if intPart = [] then none
  else
    match rest with
    | [] => some (digitsVal intPart)
    | '.' :: frac =>
      if frac.all (fun c => isDigitChar c) then some (digitsVal intPart + fracVal frac)
      else none
    | _ => none

/-- JavaScript `Number(token)` including an optional leading minus sign. -/
def jsNumberOfToken (cs : List Char) : Option ℚ :=
  match cs with
  | '-' :: rest => (jsNumberOfDigits rest).map (fun q => -q)
  | _ => jsNumberOfDigits cs

/-- Replace the first occurrence of `,` by `.` — JavaScript
`token.replace(",", ".")` with a string (non-global) pattern. -/
def replaceFirstComma : List Char → List Char
  | [] => []
  | c :: cs => if c == ',' then '.' :: cs else c :: replaceFirstComma cs

/-- Strip one leading U+FEFF byte-order mark: `s.replace(/^﻿/, "")`. -/
def stripBom (cs : List Char) : List Char :=
  match cs with
  | c :: rest => if c == Char.ofNat 0xFEFF then rest else cs
  | [] => []

/-- Separator rewriting and `Number` conversion applied to an extracted token:
the tail of `parseNumber` after the regex match. -/
def tokenValue (token : List Char) : ℚ :=
  let token :=
    if token.contains ',' && token.contains '.' then token.filter (fun c => c ≠ ',')
    else if token.contains ',' && !token.contains '.' then replaceFirstComma token
    else token
  (jsNumberOfToken token).getD 0

/-- The flexible number parser `parseNumber` of `src/unnamed/part_000`
(string-input branch; `null`/`undefined`/non-finite inputs return 0 before the
string path is reached).  Lean's `String.trim` models JavaScript's `trim` on
the ASCII whitespace the sources produce. -/
def parseNumber (x : String) : ℚ :=
  let s := jsTrim x
  if s = "" || s = "--" then 0
  else
    match findToken (stripBom s.data) with
    | none => 0
    | some token => tokenValue token

/-- First `,` or `.` occurring in a token, if any. -/
def firstSep : List Char → Option Char
  | [] => none
  | c :: cs => if c == ',' || c == '.' then some c else firstSep cs

/-- Modelled from the spec's words (claim C3): "if both `,` and `.` appear,
the first is treated as a thousands separator" — the separator that occurs
first in the token is removed everywhere, and the remaining separator is the
decimal point.  This is the *claimed* behaviour, written down to be compared
with `parseNumber`. -/
def parseFlexibleNumberFirstSepSpec (x : String) : ℚ :=
  let s := jsTrim x
  if s = "" || s = "--" then 0
  else
    match findToken (stripBom s.data) with
    | none => 0
    | some token =>
      let token1 :=
        if token.contains ',' && token.contains '.' then
          match firstSep token with
          | some fs =>
            let removed := token.filter (fun c => c ≠ fs)
            if fs == '.' then removed.map (fun c => if c == ',' then '.' else c) else removed
          | none => token
        else if token.contains ',' && !token.contains '.' then replaceFirstComma token
        else token
      (jsNumberOfToken token1).getD 0

/-- Modelled from the spec's words as amended by claim C3's counterexample:
when both separators appear, every comma is removed (commas are the thousands
separators, whichever comes first) and the dot is the decimal point; when only
commas appear, the first comma becomes the decimal point; unparseable input
yields 0. -/
def parseFlexibleNumberAmendedSpec (x : String) : ℚ :=
  let s := jsTrim x
  if s = "" || s = "--" then 0
  else
    match findToken (stripBom s.data) with
    | none => 0
    | some token =>
      if token.contains ',' && token.contains '.' then
        (jsNumberOfToken (token.filter (fun c => c ≠ ','))).getD 0
      else if token.contains ',' then
        (jsNumberOfToken (replaceFirstComma token)).getD 0
      else
        (jsNumberOfToken token).getD 0

/-! ### Civil-calendar arithmetic (the UTC date model behind `Date.UTC`,
`toISOString`, `setUTCDate` and `setUTCMonth`)

Days are counted from the Unix epoch 1970-01-01.  The conversions are the
standard era-based civil-calendar algorithms, which agree with ECMAScript's
`MakeDay`/`MakeTime` specification on all inputs. -/

/-- Days since the epoch of the civil date `(y, m, d)` with `m ∈ 1..12`
(`d` may be out of range — it enters linearly, exactly as in `MakeDay`). -/
def daysFromCivil (y m d : Int) : Int :=
  let y1 := if m ≤ 2 then y - 1 else y
  let era := y1.ediv 400
  let yoe := y1 - era * 400
  let doy := ((153 * (if 2 < m then m - 3 else m + 9) + 2).ediv 5) + d - 1
  let doe := yoe * 365 + yoe.ediv 4 - yoe.ediv 100 + doy
  era * 146097 + doe - 719468

/-- Civil date `(y, m, d)` (with `m ∈ 1..12`, `d ∈ 1..31`) of a day count. -/
def civilFromDays (z : Int) : Int × Int × Int :=
  let z1 := z + 719468
  let era := z1.ediv 146097
  let doe := z1 - era * 146097
  let yoe := (doe - doe.ediv 1460 + doe.ediv 36524 - doe.ediv 146096).ediv 365
  let y := yoe + era * 400
  let doy := doe - (365 * yoe + yoe.ediv 4 - yoe.ediv 100)
  let mp := (5 * doy + 2).ediv 153
  let d := doy - (153 * mp + 2).ediv 5 + 1
  let m := if mp < 10 then mp + 3 else mp - 9
  (if m ≤ 2 then y + 1 else y, m, d)

/-- Epoch milliseconds of `Date.UTC(y, m0, d, hh, mi, ss)` where `m0` is the
0-based month, normalized as in `MakeDay` (`ym = y + floor(m0 / 12)`,
`mn = m0 mod 12`); hours/minutes/seconds enter linearly as in `MakeTime`. -/
def jsUtcEpochMs (y m0 d hh mi ss : Int) : Int :=
  daysFromCivil (y + m0.ediv 12) (m0.emod 12 + 1) d * 86400000
    + hh * 3600000 + mi * 60000 + ss * 1000

/-- Year rendering of `toISOString`: four digits for `0..9999`, otherwise the
expanded `±YYYYYY` form. -/
def isoYearStr (y : Int) : String :=
  if 0 ≤ y && y < 10000 then pad4 y.toNat
  else if y < 0 then "-" ++ pad2 ((-y).toNat / 10000) ++ pad4 ((-y).toNat % 10000)
  else "+" ++ pad2 (y.toNat / 10000) ++ pad4 (y.toNat % 10000)

/-- `new Date(t).toISOString()` for an epoch-millisecond timestamp `t`. -/
def isoOfEpochMs (t : Int) : String :=
  let days := t.ediv 86400000
  let msod := (t.emod 86400000).toNat
  let c := civilFromDays days
  isoYearStr c.1 ++ "-" ++ pad2 c.2.1.toNat ++ "-" ++ pad2 c.2.2.toNat
    ++ "T" ++ pad2 (msod / 3600000) ++ ":" ++ pad2 (msod / 60000 % 60)
    ++ ":" ++ pad2 (msod / 1000 % 60) ++ "." ++ pad3 (msod % 1000) ++ "Z"

/-! ### Per-format date parsers

Source, `src/unnamed/part_000` lines 207–217:

```
function toIsoDateTimeFromBlofin(mdy)\x7b
  const m = String(mdy).match(/ ^(\d\x7b2\x7d)\/(\d\x7b2\x7d)\/(\d\x7b4\x7d)\s+(\d\x7b2\x7d):(\d\x7b2\x7d):(\d\x7b2\x7d)$ /);
  if (!m) return null;
  const [_, mm, dd, yyyy, HH, MM, SS] = m;
  return new Date(Date.UTC(+yyyy, +mm-1, +dd, +HH, +MM, +SS)).toISOString();
\x7d
```

Note the destructuring: the *first* capture is bound to `mm` (the month),
the second to `dd` (the day) — the parameter is even named `mdy`. -/

/-- Read exactly two digit characters. -/
def digit2 : List Char → Option (Nat × List Char)
  | a :: b :: rest =>
    if isDigitChar a && isDigitChar b then some (digitVal a * 10 + digitVal b, rest)
    else none
  | _ => none

/-- Read exactly four digit characters. -/
def digit4 (cs : List Char) : Option (Nat × List Char) :=
  match digit2 cs with
  | none => none
  | some (hi, rest) =>
    match digit2 rest with
    | none => none
    | some (lo, rest2) => some (hi * 100 + lo, rest2)

/-- Expect a single literal character. -/
def expectChar (c : Char) : List Char → Option (List Char)
  | x :: rest => if x == c then some rest else none
  | [] => none

/-- Expect one or more whitespace characters (the regex `\s+`). -/
def expectWs1 (cs : List Char) : Option (List Char) :=
  match cs with
  | c :: rest => if c.isWhitespace then some (rest.dropWhile (fun x => x.isWhitespace)) else none
  | [] => none

/-- The anchored pattern `dd/dd/dddd ws+ dd:dd:dd` of `toIsoDateTimeFromBlofin`;
returns the six numeric captures in order of appearance. -/
def parseSlashDateTime (cs : List Char) : Option (Nat × Nat × Nat × Nat × Nat × Nat) := do
  let (c1, r) ← digit2 cs
  let r ← expectChar '/' r
  let (c2, r) ← digit2 r
  let r ← expectChar '/' r
  let (y, r) ← digit4 r
  let r ← expectWs1 r
  let (h, r) ← digit2 r
  let r ← expectChar ':' r
  let (mi, r) ← digit2 r
  let r ← expectChar ':' r
  let (s, r) ← digit2 r
  if r = [] then pure (c1, c2, y, h, mi, s) else none

/-- The BloFin order-history date parser: the first slash field is used as the
month (`+mm-1`), the second as the day of the month, interpreted in UTC. -/
def toIsoDateTimeFromBlofin (s : String) : Option String :=
  match parseSlashDateTime s.data with
  | none => none
  | some (mm, dd, yyyy, hh, mi, ss) =>
    some (isoOfEpochMs (jsUtcEpochMs yyyy ((mm : Int) - 1) dd hh mi ss))

/-- Truncation toward zero, as `TimeClip`/`ToInteger` applies to a fractional
milliseconds value. -/
def truncRat (q : ℚ) : Int := if 0 ≤ q then ⌊q⌋ else ⌈q⌉

/-- `toIsoFromUnixSeconds` of `src/unnamed/part_000`: a Unix-seconds value is
parsed with `parseNumber`; 0 (also the unparseable default) yields `null`. -/
def toIsoFromUnixSeconds (sec : String) : Option String :=
  let n := parseNumber sec
  if n = 0 then none else some (isoOfEpochMs (truncRat (n * 1000)))

/-- The formatted input `MM/DD/YYYY HH:MM:SS` built from numeric components;
used to state what the slash-date parser does with each field. -/
def slashString (c1 c2 y h mi s : Nat) : String :=
  pad2 c1 ++ "/" ++ pad2 c2 ++ "/" ++ pad4 y ++ " " ++ pad2 h ++ ":" ++ pad2 mi ++ ":" ++ pad2 s

/-! ### The canonical ledger entry and the Dexie-backed store

A stored trade row.  All numeric fields are rationals; `datetime` is the ISO
datetime string produced by the normalizers. -/

structure Trade where
  datetime : String
  exchange : String
  symbol : String
  marketType : String
  side : String
  qty : ℚ
  price : ℚ
  realizedPnlUsd : ℚ
  feesUsd : ℚ
  fundingUsd : ℚ
  netPnlUsd : ℚ
  notes : String
  tradeKey : String
deriving DecidableEq, Repr

/-- Result record of an upsert: `{ added, skipped }`. -/
structure UpsertResult where
  added : Nat
  skipped : Nat
deriving DecidableEq, Repr

/-- The deterministic fallback key of `src/unnamed/part_000` `upsertTrades`:
`[exchange, marketType, symbol, datetime, String(netPnl), String(fees),
String(funding), String(idx)].join("|")`. -/
def fallbackKey (r : Trade) (idx : Nat) : String :=
  r.exchange ++ "|" ++ r.marketType ++ "|" ++ r.symbol ++ "|" ++ r.datetime ++ "|"
    ++ jsNumStr r.netPnlUsd ++ "|" ++ jsNumStr r.feesUsd ++ "|" ++ jsNumStr r.fundingUsd
    ++ "|" ++ toString idx

/-- Key normalization pass of `part_000` `upsertTrades`: a row without a
`tradeKey` receives the positional fallback key. -/
def withKeysFrom (idx : Nat) : List Trade → List Trade
  | [] => []
  | r :: rs =>
    (if r.tradeKey = "" then { r with tradeKey := fallbackKey r idx } else r)
      :: withKeysFrom (idx + 1) rs

/-- `rows.map((r, idx) => ...)` of `part_000` `upsertTrades`. -/
def withKeys (rows : List Trade) : List Trade := withKeysFrom 0 rows

/-- One IndexedDB `put` with `tradeKey` as primary key: replace the entry with
the same key, or append a new entry. -/
def putTrade (store : List Trade) (r : Trade) : List Trade :=
  if store.any (fun e => e.tradeKey = r.tradeKey) then
    store.map (fun e => if e.tradeKey = r.tradeKey then r else e)
  else store ++ [r]

/-- Dexie `bulkPut`: sequential `put` of every row. -/
def bulkPut (store : List Trade) (rows : List Trade) : List Trade :=
  rows.foldl putTrade store

namespace Part000

/-- `upsertTrades` of `src/unnamed/part_000` lines 523–547 (the variant whose
Dexie schema uses `tradeKey` as the primary key): every row is given a key,
rows with keys (all of them, after the fallback) are `bulkPut`, and the
returned report counts every valid row as `added` and the rest as `skipped`. -/
def upsertTrades (store : List Trade) (rows : List Trade) : List Trade × UpsertResult :=
  let normalized := withKeys rows
  let valid := normalized.filter (fun r => r.tradeKey ≠ "")
  (if valid.length ≠ 0 then bulkPut store valid else store,
   { added := valid.length, skipped := normalized.length - valid.length })

end Part000

namespace SiteApp

/-- `upsertTrades` of `src/site/app.js` lines 236–243: rows whose key is not
already in the store are `bulkAdd`ed (appended); existing keys are counted as
`skipped` and the stored entries are left untouched. -/
def upsertTrades (store : List Trade) (rows : List Trade) : List Trade × UpsertResult :=
  let keySet := store.map (fun e => e.tradeKey)
  let toAdd := rows.filter (fun r => r.tradeKey ≠ "" && !(keySet.contains r.tradeKey))
  (if toAdd.length ≠ 0 then store ++ toAdd else store,
   { added := toAdd.length, skipped := rows.length - toAdd.length })

end SiteApp

/-! ### Aggregation: KPIs and the equity series -/

/-- Result of `aggregateKPIs`. -/
structure KPIs where
  net : ℚ
  fees : ℚ
  wins : Nat
  count : Nat
  winrate : ℚ
deriving Repr

/-- `aggregateKPIs` of `src/unnamed/part_000` lines 598–605.  The JavaScript
guards `(t.netPnlUsd || 0)` are identities on rationals (no NaN/undefined). -/
def aggregateKPIs (trades : List Trade) : KPIs :=
  let net := trades.foldl (fun s t => s + t.netPnlUsd) 0
  let fees := trades.foldl (fun s t => s + t.feesUsd) 0
  let wins := (trades.filter (fun t => 0 < t.netPnlUsd)).length
  let count := trades.length
  { net := net, fees := fees, wins := wins, count := count,
    winrate := if count ≠ 0 then (wins : ℚ) / (count : ℚ) else 0 }

/-- One equity-curve point `{x: datetime, y: cumulative net}`. -/
structure EquityPoint where
  x : String
  y : ℚ
deriving DecidableEq, Repr

/-- Loop of `buildEquitySeries` with the running sum made explicit. -/
def buildEquityFrom (cum : ℚ) : List Trade → List EquityPoint
  | [] => []
  | t :: rest =>
    { x := t.datetime, y := cum + t.netPnlUsd } :: buildEquityFrom (cum + t.netPnlUsd) rest

/-- `buildEquitySeries` of `src/unnamed/part_000` lines 606–610. -/
def buildEquitySeries (tradesAsc : List Trade) : List EquityPoint :=
  buildEquityFrom 0 tradesAsc

/-! ### Time buckets -/

/-- A monthly bucket `{key, label, net, fees, funding}`. -/
structure MonthBucket where
  key : String
  label : String
  net : ℚ
  fees : ℚ
  funding : ℚ
deriving Repr

/-- A daily bucket `{key, label, net}`. -/
structure DayBucket where
  key : String
  label : String
  net : ℚ
deriving Repr

/-- Month key template of `monthlyBuckets`:
`getUTCFullYear() + "-" + String(month + 1).padStart(2, "0")`. -/
def monthKeyStr (y : Int) (m1 : Int) : String := toString y ++ "-" ++ padStart2 m1

/-- Month key of a month index `t` (months relative to year 0), normalized as
`setUTCMonth` does. -/
def monthKeyOfIndex (y m0 : Int) : String := monthKeyStr (y + m0.ediv 12) (m0.emod 12 + 1)

/-- The month key `new Date(t.datetime)` assigns to a trade: for the ISO
datetime strings every normalizer produces, `getUTCFullYear`/`getUTCMonth`
recover the leading `YYYY`/`MM` fields of the string, rendered through the
same template as the bucket keys.  A string that does not start with
`dddd-dd` corresponds to an invalid `Date` and renders as `NaN-NaN`,
matching no bucket. -/
def tradeMonthKey (s : String) : String :=
  match s.data with
  | a :: b :: c :: d :: dash :: e :: f :: _ =>
    if isDigitChar a && isDigitChar b && isDigitChar c && isDigitChar d
        && dash == '-' && isDigitChar e && isDigitChar f then
      monthKeyStr (digitVal a * 1000 + digitVal b * 100 + digitVal c * 10 + digitVal d)
        (digitVal e * 10 + digitVal f)
    else "NaN-NaN"
  | _ => "NaN-NaN"

/-- The day key assigned to a trade by `dailyBuckets`:
`String(t.datetime || "").slice(0, 10)`. -/
def tradeDayKey (s : String) : String := String.mk (s.data.take 10)

/-- Add one trade's sums to the first bucket carrying its month key (the `Map`
lookup of `monthlyBuckets`; the twelve generated keys are pairwise distinct,
so first-match equals the `Map`'s entry). -/
def addToMonth : List MonthBucket → String → ℚ → ℚ → ℚ → List MonthBucket
  | [], _, _, _, _ => []
  | b :: bs, k, n, f, fu =>
    if b.key = k then { b with net := b.net + n, fees := b.fees + f, funding := b.funding + fu } :: bs
    else b :: addToMonth bs k n f fu

/-- Add one trade's net to the first bucket carrying its day key. -/
def addToDay : List DayBucket → String → ℚ → List DayBucket
  | [], _, _ => []
  | b :: bs, k, n =>
    if b.key = k then { b with net := b.net + n } :: bs
    else b :: addToDay bs k n

/-- The twelve pre-populated month buckets: `i = 11, 10, ..., 0` giving
`addMonthsUTC(year, month, -i)` of the reference month. -/
def monthInit (y m0 : Int) : List MonthBucket :=
  (List.range 12).map (fun j =>
    let key := monthKeyOfIndex y (m0 - (11 - (j : Int)))
    { key := key, label := key, net := 0, fees := 0, funding := 0 })

/-- `monthlyBuckets` of `src/unnamed/part_000` lines 611–628, with the
reference instant given by its UTC year and 0-based month. -/
def monthlyBuckets (trades : List Trade) (y m0 : Int) : List MonthBucket :=
  trades.foldl
    (fun ms t => addToMonth ms (tradeMonthKey t.datetime) t.netPnlUsd t.feesUsd t.fundingUsd)
    (monthInit y m0)

/-- The `daysBack` pre-populated day buckets: `i = daysBack-1, ..., 0`, each
key the first ten characters of `toISOString()` of the base day shifted back
`i` days. -/
def dayInit (y m0 d : Int) (daysBack : Nat) : List DayBucket :=
  (List.range daysBack).map (fun j =>
    let key := tradeDayKey (isoOfEpochMs ((daysFromCivil (y + m0.ediv 12) (m0.emod 12 + 1) d
      - ((daysBack - 1 - j : Nat) : Int)) * 86400000))
    { key := key, label := key, net := 0 })

/-- `dailyBuckets` of `src/unnamed/part_000` lines 630–647, with the reference
instant given by its UTC year, 0-based month and day of month. -/
def dailyBuckets (trades : List Trade) (y m0 d : Int) (daysBack : Nat) : List DayBucket :=
  trades.foldl (fun bs t => addToDay bs (tradeDayKey t.datetime) t.netPnlUsd)
    (dayInit y m0 d daysBack)

/-! ### Raw CSV row objects

`rowsToObjects` builds one JavaScript object per data row, assigning
`obj[headers[c]] = value` in column order.  The object is modelled as an
association list in which a later assignment overwrites an earlier one with
the same key; `obj[k]` on a missing key is `undefined`, which `safeText`
turns into `""`. -/

def Obj := List (String × String)

/-- Property read `safeText(o[k])`: the value bound to `k`, or `""`. -/
def getField (o : Obj) (k : String) : String :=
  ((o.find? (fun p => p.1 = k)).map Prod.snd).getD ""

/-- Property assignment `o[k] = v` (overwrite semantics). -/
def setField (o : Obj) (k v : String) : Obj :=
  (o.filter (fun p => p.1 ≠ k)) ++ [(k, v)]

/-! ### Normalizers

`normalizeBlofin`, `src/unnamed/part_000` lines 393–413.  The loop builds an
entry whose `datetime` may still be `null`; the trailing
`out.filter(x => x.datetime)` keeps only rows with a resolvable timestamp. -/

/-- An entry as built inside a normalizer loop, before the `datetime` filter:
the timestamp may still be `null`. -/
structure PreTrade where
  datetime : Option String
  exchange : String
  symbol : String
  marketType : String
  side : String
  qty : ℚ
  price : ℚ
  realizedPnlUsd : ℚ
  feesUsd : ℚ
  fundingUsd : ℚ
  netPnlUsd : ℚ
  notes : String
  tradeKey : String

/-- Materialize a `PreTrade` that survived the `datetime` filter. -/
def PreTrade.toTrade (p : PreTrade) : Trade :=
  { datetime := p.datetime.getD "", exchange := p.exchange, symbol := p.symbol,
    marketType := p.marketType, side := p.side, qty := p.qty, price := p.price,
    realizedPnlUsd := p.realizedPnlUsd, feesUsd := p.feesUsd,
    fundingUsd := p.fundingUsd, netPnlUsd := p.netPnlUsd, notes := p.notes,
    tradeKey := p.tradeKey }

/-- Loop body of `normalizeBlofin`: `none` models `continue`. -/
def blofinRow (o : Obj) : Option PreTrade :=
  if jsToLower (getField o "Status") ≠ "filled" then none
  else
    let pnlRaw := jsTrim (getField o "PNL")
    if pnlRaw = "" || pnlRaw = "--" then none
    else
      let datetime := toIsoDateTimeFromBlofin (getField o "Order Time")
      let symbol := getField o "Underlying Asset"
      let sideRaw := getField o "Side"
      let side := if containsStr (jsToLower sideRaw) "sell" then "SELL" else "BUY"
      let qty := parseNumber (getField o "Filled")
      let price := orNum (parseNumber (getField o "Avg Fill")) (parseNumber (getField o "Price"))
      let pnlUsd := parseNumber (getField o "PNL")
      let feeUsd := |parseNumber (getField o "Fee")|
      let fundingUsd : ℚ := 0
      let netUsd := pnlUsd - feeUsd + fundingUsd
      some { datetime := datetime, exchange := "BLOFIN", symbol := symbol,
             marketType := "FUTURES", side := side, qty := qty, price := price,
             realizedPnlUsd := pnlUsd, feesUsd := feeUsd, fundingUsd := fundingUsd,
             netPnlUsd := netUsd,
             notes := orStr (orStr (getField o "Order Options") (getField o "Status")) "",
             tradeKey := "BLOFIN|" ++ getField o "Order Time" ++ "|" ++ symbol ++ "|"
               ++ sideRaw ++ "|" ++ jsNumStr qty ++ "|" ++ jsNumStr price ++ "|"
               ++ jsNumStr pnlUsd ++ "|" ++ jsNumStr feeUsd }

/-- `normalizeBlofin`: loop plus the final `filter(x => x.datetime)`. -/
def normalizeBlofin (objs : List Obj) : List Trade :=
  ((objs.filterMap blofinRow).filter (fun p => p.datetime.isSome)).map PreTrade.toTrade

/-- Replace the first space by `T` — `dtStr.replace(" ", "T")` (non-global). -/
def replaceFirstSpaceT : List Char → List Char
  | [] => []
  | c :: cs => if c == ' ' then 'T' :: cs else c :: replaceFirstSpaceT cs

/-- JavaScript `s.endsWith("Z")`. -/
def endsWithZ (s : String) : Bool := s.data.getLast? == some 'Z'

/-- Loop body of `normalizeKrakenFuturesAccountLog`,
`src/unnamed/part_000` lines 435–465. -/
def krakenFuturesLogRow (o : Obj) : Option PreTrade :=
  let uid := jsTrim (getField o "uid")
  let dtStr := jsTrim (orStr (getField o "dateTime") (getField o "datetime"))
  if dtStr = "" then none
  else
    let dt := String.mk (replaceFirstSpaceT dtStr.data)
    let datetimeIso := if endsWithZ dt then dt else dt ++ "Z"
    let typeRaw := jsTrim (getField o "type")
    let ty := jsToLower typeRaw
    if !(ty = "futures trade" || ty = "funding rate change" || ty = "futures liquidation"
         || ty = "futures assignor") then none
    else
      let contract := jsTrim (getField o "contract")
      let symbol := orStr contract (jsTrim (getField o "symbol"))
      let realizedPnlUsd := parseNumber (orStr (getField o "realized pnl") (getField o "realized_pnl"))
      let feeUsd := |parseNumber (getField o "fee")|
      let realizedFundingUsd := parseNumber (orStr (getField o "realized funding") (getField o "realized_funding"))
      let liquidationFeeUsd := |parseNumber (orStr (getField o "liquidation fee") (getField o "liquidation_fee"))|
      let fundingUsd : ℚ :=
        if ty = "funding rate change" then
          orNum realizedFundingUsd (orNum (parseNumber (getField o "change")) 0)
        else 0
      let pnlUsd := if ty = "funding rate change" then 0 else orNum realizedPnlUsd 0
      let feesTotal := if ty = "funding rate change" then 0 else orNum feeUsd 0 + orNum liquidationFeeUsd 0
      let netUsd := pnlUsd - feesTotal + fundingUsd
      some { datetime := some datetimeIso, exchange := "KRAKEN", symbol := symbol,
             marketType := "FUTURES", side := jsToUpper typeRaw, qty := 0,
             price := parseNumber (orStr (getField o "trade price")
               (orStr (getField o "trade_price") "0")),
             realizedPnlUsd := pnlUsd, feesUsd := feesTotal, fundingUsd := fundingUsd,
             netPnlUsd := netUsd,
             notes := orStr (getField o "position uid") typeRaw,
             tradeKey := if uid ≠ "" then "KRAKENF_LOG|" ++ uid
               else "KRAKENF_LOG|" ++ datetimeIso ++ "|" ++ typeRaw ++ "|" ++ symbol ++ "|"
                 ++ jsNumStr pnlUsd ++ "|" ++ jsNumStr feesTotal ++ "|" ++ jsNumStr fundingUsd }

/-- `normalizeKrakenFuturesAccountLog`: loop plus the `datetime` filter (every
surviving row already has a non-null datetime string). -/
def normalizeKrakenFuturesAccountLog (objs : List Obj) : List Trade :=
  ((objs.filterMap krakenFuturesLogRow).filter (fun p => p.datetime.isSome)).map PreTrade.toTrade

/-- Loop body of `normalizeKraken` (Kraken spot `trades.csv`),
`src/unnamed/part_000` lines 415–433. -/
def krakenRow (o : Obj) : Option PreTrade :=
  let datetime := if getField o "time" ≠ "" then toIsoFromUnixSeconds (getField o "time") else none
  let symbol := orStr (getField o "pair") (orStr (getField o "symbol") "")
  let ty := orStr (getField o "type") (orStr (getField o "side") "")
  let side := if containsStr (jsToLower ty) "sell" then "SELL" else "BUY"
  let qty := parseNumber (orStr (getField o "vol") (orStr (getField o "qty") (getField o "volume")))
  let price := parseNumber (orStr (getField o "price") (getField o "avgPrice"))
  let feeUsd := |parseNumber (orStr (getField o "fee") (getField o "cfee"))|
  let netUsd := parseNumber (orStr (getField o "net") (orStr (getField o "pnl") "0"))
  let pnlUsd := if getField o "pnl" ≠ "" then parseNumber (getField o "pnl") else netUsd + feeUsd
  let fundingUsd := if getField o "funding" ≠ "" then parseNumber (getField o "funding") else 0
  let netCalc := orNum pnlUsd 0 - feeUsd + fundingUsd
  some { datetime := datetime, exchange := "KRAKEN", symbol := symbol,
         marketType := "FUTURES", side := side, qty := qty, price := price,
         realizedPnlUsd := orNum pnlUsd 0, feesUsd := feeUsd, fundingUsd := fundingUsd,
         netPnlUsd := orNum netUsd netCalc,
         notes := orStr (getField o "txid") "",
         tradeKey := "KRAKEN|" ++ getField o "txid" ++ "|" ++ symbol ++ "|"
           ++ getField o "time" ++ "|" ++ jsNumStr qty ++ "|" ++ jsNumStr price ++ "|"
           ++ jsNumStr netUsd }

/-- `normalizeKraken`: loop plus the `datetime` filter. -/
def normalizeKraken (objs : List Obj) : List Trade :=
  ((objs.filterMap krakenRow).filter (fun p => p.datetime.isSome)).map PreTrade.toTrade

/-! ### Remote-snapshot (API JSON) normalizer, `src/unnamed/part_000`
lines 468–521. -/

/-- A row of the snapshot's `rows` array.  JSON fields may be absent
(`Option`); JavaScript `x || dflt` falls back on `""`/`0`, `x ?? dflt` only on
absence. -/
structure ApiRow where
  datetime : Option String
  exchange : Option String
  symbol : Option String
  marketType : Option String
  side : Option String
  qty : Option ℚ
  price : Option ℚ
  realizedPnlUsd : Option ℚ
  feesUsd : Option ℚ
  fundingUsd : Option ℚ
  netPnlUsd : Option ℚ
  notes : Option String
  tradeKey : Option String

/-- JavaScript `safeText(x || dflt)` on an optional string field. -/
def orOptStr (a : Option String) (dflt : String) : String :=
  match a with
  | some s => if s = "" then dflt else s
  | none => dflt

/-- JavaScript `Number(x || 0)` on an optional numeric field. -/
def orOptNum (a : Option ℚ) : ℚ := (a.getD 0)

/-- The `rows.map(r => (...))` body of `normalizeApiRows`. -/
def apiRowTrade (r : ApiRow) : Trade :=
  { datetime := orOptStr r.datetime "",
    exchange := orOptStr r.exchange "KRAKEN",
    symbol := orOptStr r.symbol "",
    marketType := orOptStr r.marketType "FUTURES",
    side := orOptStr r.side "",
    qty := orOptNum r.qty,
    price := orOptNum r.price,
    realizedPnlUsd := orOptNum r.realizedPnlUsd,
    feesUsd := orOptNum r.feesUsd,
    fundingUsd := orOptNum r.fundingUsd,
    netPnlUsd :=
      match r.netPnlUsd with
      | some v => v
      | none => orOptNum r.realizedPnlUsd - orOptNum r.feesUsd + orOptNum r.fundingUsd,
    notes := orOptStr r.notes "",
    tradeKey := orOptStr r.tradeKey "" }

/-- The key-repair pass of `normalizeApiRows` (`for` loop at lines 486–490):
a mapped row without a `tradeKey` receives
`exchange|symbol|datetime|netPnl|index`. -/
def apiEnsureKeysFrom (idx : Nat) : List Trade → List Trade
  | [] => []
  | t :: ts =>
    (if t.tradeKey = "" then
      { t with tradeKey := t.exchange ++ "|" ++ t.symbol ++ "|" ++ t.datetime ++ "|"
          ++ jsNumStr t.netPnlUsd ++ "|" ++ toString idx }
     else t) :: apiEnsureKeysFrom (idx + 1) ts

/-- The `rows`-shaped branch of `normalizeApiRows`: map, repair keys, and keep
rows with a non-empty datetime (`filter(x => x.datetime)`). -/
def normalizeApiRowsRows (rows : List ApiRow) : List Trade :=
  (apiEnsureKeysFrom 0 (rows.map apiRowTrade)).filter (fun t => t.datetime ≠ "")

/-- A legacy `closed_trades` element. -/
structure LegacyTrade where
  entry_dt : Option String
  exit_dt : Option String
  symbol : Option String
  direction : Option String
  qty : Option ℚ
  entry_price : Option ℚ
  exit_price : Option ℚ
  realized_pnl : Option ℚ
  fees : Option ℚ
  funding : Option ℚ
  net_pnl : Option ℚ
  entry_fill_id : Option String
  exit_fill_id : Option String

/-- Loop body of the legacy `closed_trades` branch of `normalizeApiRows`. -/
def legacyTradeRow (t : LegacyTrade) : Option Trade :=
  let datetime := orOptStr t.exit_dt (orOptStr t.entry_dt "")
  if datetime = "" then none
  else
    let realizedPnlUsd := orOptNum t.realized_pnl
    let feesUsd := orOptNum t.fees
    let fundingUsd := orOptNum t.funding
    let netPnlUsd :=
      match t.net_pnl with
      | some v => v
      | none => realizedPnlUsd - feesUsd + fundingUsd
    some { datetime := datetime, exchange := "KRAKEN", symbol := orOptStr t.symbol "",
           marketType := "FUTURES", side := orOptStr t.direction "",
           qty := orOptNum t.qty,
           price := orNum (orOptNum t.exit_price) (orOptNum t.entry_price),
           realizedPnlUsd := realizedPnlUsd, feesUsd := feesUsd,
           fundingUsd := fundingUsd, netPnlUsd := netPnlUsd,
           notes := "entry:" ++ orOptStr t.entry_fill_id "" ++ " exit:" ++ orOptStr t.exit_fill_id "",
           tradeKey := "KRAKENF_API|" ++ orOptStr t.entry_fill_id "" ++ "|"
             ++ orOptStr t.exit_fill_id "" ++ "|" ++ orOptStr t.symbol "" ++ "|" ++ datetime }

/-- The legacy branch of `normalizeApiRows`. -/
def normalizeApiRowsLegacy (ts : List LegacyTrade) : List Trade :=
  ts.filterMap legacyTradeRow

/-! ### CSV parsing, format detection, import and export

`parseCsv`, `src/unnamed/part_000` lines 342–362: a character-by-character
state machine over (position, current field, current row, rows, in-quotes). -/

/-- The `parseCsv` loop.  Fields and rows are accumulated in order; the
quoted-state lookahead `text[i+1] === '"'` is the two-character pattern in the
first branch. -/
def parseCsvAux : List Char → Bool → List Char → List (List Char) →
    List (List (List Char)) → List (List (List Char))
  | [], _, field, row, rows =>
    if field.length ≠ 0 || row.length ≠ 0 then rows ++ [row ++ [field]] else rows
  | c :: cs, inQuotes, field, row, rows =>
    if inQuotes then
      if c == '"' then
        match cs with
        | [] => if field.length ≠ 0 || row.length ≠ 0 then rows ++ [row ++ [field]] else rows
        | c2 :: cs2 =>
          if c2 == '"' then parseCsvAux cs2 true (field ++ ['"']) row rows
          else parseCsvAux (c2 :: cs2) false field row rows
      else parseCsvAux cs true (field ++ [c]) row rows
    else
      if c == '"' then parseCsvAux cs true field row rows
      else if c == ',' then parseCsvAux cs false [] (row ++ [field]) rows
      else if c == '\n' then parseCsvAux cs false [] [] (rows ++ [row ++ [field]])
      else if c == '\r' then parseCsvAux cs false field row rows
      else parseCsvAux cs false (field ++ [c]) row rows

/-- `parseCsv(text)`: rows of field strings. -/
def parseCsv (text : String) : List (List String) :=
  (parseCsvAux text.data false [] [] []).map (fun r => r.map String.mk)

/-- Header normalization of `rowsToObjects`: trim every header and strip a
BOM from the first one. -/
def headerNames (hrow : List String) : List String :=
  hrow.enum.map (fun p =>
    let t := jsTrim p.2
    if p.1 = 0 then String.mk (stripBom t.data) else t)

/-- Build one row object: `obj[headers[c]] = (arr[c] ?? "").trim()` for every
header column, in order. -/
def rowToObj (headers : List String) (arr : List String) : Obj :=
  headers.enum.foldl (fun o p => setField o p.2 (jsTrim (arr.getD p.1 ""))) []

/-- Data-row pass of `rowsToObjects`: single-empty-field rows are skipped. -/
def rowsToObjs (headers : List String) (rows : List (List String)) : List Obj :=
  (rows.filter (fun arr => !(arr.length = 1 && jsTrim (arr.getD 0 "") = ""))).map
    (rowToObj headers)

/-- The closed set of detected CSV formats. -/
inductive CsvType where
  | BLOFIN_ORDER_HISTORY
  | KRAKEN_TRADES
  | KRAKEN_FUTURES_ACCOUNT_LOG
  | UNKNOWN
deriving DecidableEq, Repr

/-- Header normalization inside `detectCsvType`: each header is trimmed and
BOM-stripped (`h = headers.map(x => x.trim().replace(BOM, ""))`). -/
def detectNorm (headers : List String) : List String :=
  headers.map (fun x => String.mk (stripBom (jsTrim x).data))

/-- The BloFin order-history rule of `detectCsvType` (a conjunction of exact
`includes` tests). -/
def blofinCond (h : List String) : Bool :=
  h.contains "Underlying Asset" && h.contains "Order Time" && h.contains "PNL"
    && h.contains "Fee"

/-- The Kraken spot-trades rule of `detectCsvType`. -/
def krakenCond (h : List String) : Bool :=
  h.contains "txid" && h.contains "ordertype" && h.contains "pair" && h.contains "time"

/-- The Kraken Futures account-log rule of `detectCsvType` (four required
columns plus one of `contract`/`symbol`). -/
def kflCond (h : List String) : Bool :=
  h.contains "uid" && h.contains "dateTime" && h.contains "type" && h.contains "change"
    && (h.contains "contract" || h.contains "symbol")

/-- `detectCsvType`, `src/unnamed/part_000` lines 375–382: fixed rule order,
first matching rule wins, no match yields `UNKNOWN`. -/
def detectCsvType (headers : List String) : CsvType :=
  let h := detectNorm headers
  if blofinCond h then .BLOFIN_ORDER_HISTORY
  else if krakenCond h then .KRAKEN_TRADES
  else if kflCond h then .KRAKEN_FUTURES_ACCOUNT_LOG
  else .UNKNOWN

/-- Outcome of the import click handler. -/
inductive ImportOutcome where
  | unknownFormat (headers : List String)
  | failed
  | ok (ty : CsvType) (r : UpsertResult)
deriving Repr

/-- The import flow of the `importBtn` click handler, `src/unnamed/part_000`
lines 1380–1400: parse, detect, normalize per format, upsert.  An unknown
format is surfaced as a user-facing error before any upsert; an empty parse
(no header row) throws in `rowsToObjects` and is caught, also before any
upsert. -/
def importCsvText (store : List Trade) (text : String) : List Trade × ImportOutcome :=
  match parseCsv text with
  | [] => (store, .failed)
  | hrow :: body =>
    let headers := headerNames hrow
    let objs := rowsToObjs headers body
    match detectCsvType headers with
    | .BLOFIN_ORDER_HISTORY =>
      let r := Part000.upsertTrades store (normalizeBlofin objs)
      (r.1, .ok .BLOFIN_ORDER_HISTORY r.2)
    | .KRAKEN_TRADES =>
      let r := Part000.upsertTrades store (normalizeKraken objs)
      (r.1, .ok .KRAKEN_TRADES r.2)
    | .KRAKEN_FUTURES_ACCOUNT_LOG =>
      let r := Part000.upsertTrades store (normalizeKrakenFuturesAccountLog objs)
      (r.1, .ok .KRAKEN_FUTURES_ACCOUNT_LOG r.2)
    | .UNKNOWN => (store, .unknownFormat headers)

/-! ### Export, `src/unnamed/part_000` lines 1415–1429: fixed header order,
every value stringified, `"` doubled, each cell wrapped in quotes, cells
joined by `,`, lines joined by `\n`. -/

/-- The fixed export column order. -/
def exportHeaders : List String :=
  ["datetime", "exchange", "symbol", "marketType", "side", "qty", "price",
   "realizedPnlUsd", "feesUsd", "fundingUsd", "netPnlUsd", "notes", "tradeKey"]

/-- The thirteen stringified cell values of one trade, in export column
order (`String(t[h] ?? "")`). -/
def tradeCells (t : Trade) : List String :=
  [t.datetime, t.exchange, t.symbol, t.marketType, t.side, jsNumStr t.qty,
   jsNumStr t.price, jsNumStr t.realizedPnlUsd, jsNumStr t.feesUsd,
   jsNumStr t.fundingUsd, jsNumStr t.netPnlUsd, t.notes, t.tradeKey]

/-- Double every `"` — `String(v).replace(/"/g, '""')` (comment: the regex is
a global double-quote match). -/
def escQuotes : List Char → List Char
  | [] => []
  | c :: cs => if c == '"' then '"' :: '"' :: escQuotes cs else c :: escQuotes cs

/-- One quoted cell: `'"' + escaped + '"'`. -/
def quoteCell (s : String) : List Char := '"' :: escQuotes s.data ++ ['"']

/-- One exported data line: quoted cells joined by `,`. -/
def exportLine (cells : List String) : List Char :=
  (List.intersperse [','] (cells.map quoteCell)).flatten

/-- The full exported CSV text: the header line followed by one line per
trade, joined by `\n`. -/
def exportCsv (trades : List Trade) : String :=
  String.mk ((List.intersperse ['\n']
    ((String.intercalate "," exportHeaders).data
      :: trades.map (fun t => exportLine (tradeCells t)))).flatten)

/-! ## Theorems -/

/-- A placeholder entry used only as the `getD` default in index-wise
statements. -/
def defaultTrade : Trade :=
  { datetime := "", exchange := "", symbol := "", marketType := "", side := "",
    qty := 0, price := 0, realizedPnlUsd := 0, feesUsd := 0, fundingUsd := 0,
    netPnlUsd := 0, notes := "", tradeKey := "" }

/-- Placeholder equity point for `getD`. -/
def defaultPoint : EquityPoint := { x := "", y := 0 }

/-! ### C8: win-rate definition and bounds -/

/-- C8: `aggregateKPIs` computes `winrate = wins / count`, a win being an
entry with strictly positive `netPnlUsd` (zero-net entries count in `count`
but not in `wins`); for nonempty input the rate lies in `[0, 1]`, and the
empty input yields `winrate = 0` (total function, no exception). -/
theorem aggregateKPIs_winrate_ok :
    (∀ trades : List Trade,
      (aggregateKPIs trades).wins = (trades.filter (fun t => 0 < t.netPnlUsd)).length
      ∧ (aggregateKPIs trades).count = trades.length)
    ∧ (∀ trades : List Trade, trades ≠ [] →
        (aggregateKPIs trades).winrate
            = ((aggregateKPIs trades).wins : ℚ) / ((aggregateKPIs trades).count : ℚ)
        ∧ 0 ≤ (aggregateKPIs trades).winrate
        ∧ (aggregateKPIs trades).winrate ≤ 1)
    ∧ (aggregateKPIs []).winrate = 0 := by
  refine ⟨fun trades => ⟨rfl, rfl⟩, fun trades hne => ?_, rfl⟩
  have hlen : trades.length ≠ 0 := by
    simpa [List.length_eq_zero] using hne
  have hwins : (trades.filter (fun t => 0 < t.netPnlUsd)).length ≤ trades.length :=
    List.length_filter_le _ _
  have hpos : (0 : ℚ) < (trades.length : ℚ) := by
    exact_mod_cast Nat.pos_of_ne_zero hlen
  constructor
  · simp [aggregateKPIs, hlen]
  constructor
  · simp only [aggregateKPIs, hlen]
    positivity
  · simp only [aggregateKPIs, hlen, if_true, ne_eq, not_false_iff]
    rw [div_le_one hpos]
    exact_mod_cast hwins

/-- C8 witness: the theorem applied to a concrete one-element list. -/
theorem aggregateKPIs_winrate_ok_witness :
    [defaultTrade] ≠ ([] : List Trade)
    ∧ 0 ≤ (aggregateKPIs [defaultTrade]).winrate
    ∧ (aggregateKPIs [defaultTrade]).winrate ≤ 1 :=
  ⟨by decide, (aggregateKPIs_winrate_ok.2.1 [defaultTrade] (by decide)).2⟩

/-! ### C6: equity series -/

/-- Lengths: one point per entry, at every running sum. -/
theorem buildEquityFrom_length (ts : List Trade) :
    ∀ cum : ℚ, (buildEquityFrom cum ts).length = ts.length := by
  induction ts with
  | nil => intro cum; rfl
  | cons t rest ih => intro cum; simp [buildEquityFrom, ih]

/-- Timestamps: the point abscissas are the entry datetimes, in order. -/
theorem buildEquityFrom_x (ts : List Trade) :
    ∀ cum : ℚ, (buildEquityFrom cum ts).map EquityPoint.x = ts.map Trade.datetime := by
  induction ts with
  | nil => intro cum; rfl
  | cons t rest ih => intro cum; simp [buildEquityFrom, ih]

/-- The head point carries the running sum plus the head entry's net. -/
theorem buildEquityFrom_head (ts : List Trade) (cum : ℚ) (h : 0 < ts.length) :
    ((buildEquityFrom cum ts).getD 0 defaultPoint).y
      = cum + (ts.getD 0 defaultTrade).netPnlUsd := by
  cases ts with
  | nil => simp at h
  | cons t rest => simp [buildEquityFrom]

/-- Successive points differ by the corresponding entry's net. -/
theorem buildEquityFrom_step (ts : List Trade) :
    ∀ (cum : ℚ) (i : Nat), i + 1 < ts.length →
      ((buildEquityFrom cum ts).getD (i + 1) defaultPoint).y
        = ((buildEquityFrom cum ts).getD i defaultPoint).y
          + (ts.getD (i + 1) defaultTrade).netPnlUsd := by
  induction ts with
  | nil => intro cum i h; simp at h
  | cons t rest ih =>
    intro cum i h
    cases i with
    | zero =>
      have hr : 0 < rest.length := by simpa using h
      have := buildEquityFrom_head rest (cum + t.netPnlUsd) hr
      simpa [buildEquityFrom] using this
    | succ j =>
      have hj : j + 1 < rest.length := by simpa using h
      have := ih (cum + t.netPnlUsd) j hj
      simpa [buildEquityFrom] using this

/-- C6: for an ascending-time entry list, `buildEquitySeries` emits one point
per entry; the output timestamps are exactly the input timestamps in order
(hence non-decreasing when the input is sorted ascending); the first
cumulative value is the first entry's `netPnlUsd`, and each following
cumulative value is the previous one plus that entry's `netPnlUsd`. -/
theorem buildEquitySeries_ok (ts : List Trade) :
    (buildEquitySeries ts).length = ts.length
    ∧ (buildEquitySeries ts).map EquityPoint.x = ts.map Trade.datetime
    ∧ (0 < ts.length →
        ((buildEquitySeries ts).getD 0 defaultPoint).y = (ts.getD 0 defaultTrade).netPnlUsd)
    ∧ (∀ i : Nat, i + 1 < ts.length →
        ((buildEquitySeries ts).getD (i + 1) defaultPoint).y
          = ((buildEquitySeries ts).getD i defaultPoint).y
            + (ts.getD (i + 1) defaultTrade).netPnlUsd)
    ∧ (List.Chain' (· ≤ ·) (ts.map Trade.datetime) →
        List.Chain' (· ≤ ·) ((buildEquitySeries ts).map EquityPoint.x)) := by
  refine ⟨buildEquityFrom_length ts 0, buildEquityFrom_x ts 0, ?_, ?_, ?_⟩
  · intro h
    simpa [buildEquitySeries] using buildEquityFrom_head ts 0 h
  · intro i h
    exact buildEquityFrom_step ts 0 i h
  · intro h
    rw [buildEquitySeries, buildEquityFrom_x ts 0]
    exact h

/-- C6 witness: the theorem applied to the spec's concrete scenario, three
entries with nets +10, −4, +2 sorted ascending by time, whose cumulative
values are 10, 6, 8. -/
theorem buildEquitySeries_ok_witness :
    (0 < ([{ defaultTrade with datetime := "2024-01-01", netPnlUsd := 10 },
           { defaultTrade with datetime := "2024-01-02", netPnlUsd := -4 },
           { defaultTrade with datetime := "2024-01-03", netPnlUsd := 2 }] : List Trade).length)
    ∧ ((buildEquitySeries [{ defaultTrade with datetime := "2024-01-01", netPnlUsd := 10 },
           { defaultTrade with datetime := "2024-01-02", netPnlUsd := -4 },
           { defaultTrade with datetime := "2024-01-03", netPnlUsd := 2 }]).getD 0 defaultPoint).y
        = ({ defaultTrade with datetime := "2024-01-01", netPnlUsd := 10 } : Trade).netPnlUsd := by
  refine ⟨by decide, ?_⟩
  have h := (buildEquitySeries_ok
    [{ defaultTrade with datetime := "2024-01-01", netPnlUsd := 10 },
     { defaultTrade with datetime := "2024-01-02", netPnlUsd := -4 },
     { defaultTrade with datetime := "2024-01-03", netPnlUsd := 2 }]).2.2.1 (by decide)
  simpa using h

/-! ### C3: flexible number parsing -/

/-- C3 counterexample: on `"1.234,56"` the dot is the separator that appears
first in the token, so the claimed rule ("the separator that appears first is
the thousands separator, the other is the decimal point") requires the value
1234.56 — but `parseNumber` unconditionally deletes the commas and keeps the
dot as the decimal point, producing 1.23456. -/
theorem parseNumber_first_separator_cex :
    parseFlexibleNumberFirstSepSpec "1.234,56" = (123456 : ℚ) / 100
    ∧ parseNumber "1.234,56" = (123456 : ℚ) / 100000
    ∧ parseNumber "1.234,56" ≠ parseFlexibleNumberFirstSepSpec "1.234,56" := by
  have h1 : parseNumber "1.234,56" = digitsVal ['1'] + fracVal ['2', '3', '4', '5', '6'] :=
    rfl
  have h2 : parseFlexibleNumberFirstSepSpec "1.234,56"
      = digitsVal ['1', '2', '3', '4'] + fracVal ['5', '6'] := rfl
  have e1 : digitsVal ['1'] + fracVal ['2', '3', '4', '5', '6'] = (123456 : ℚ) / 100000 := by
    simp [digitsVal, fracVal, digitVal]
    norm_num
  have e2 : digitsVal ['1', '2', '3', '4'] + fracVal ['5', '6'] = (123456 : ℚ) / 100 := by
    simp [digitsVal, fracVal, digitVal]
    norm_num
  refine ⟨h2.trans e2, h1.trans e1, ?_⟩
  rw [h1.trans e1, h2.trans e2]
  norm_num

/-- C3 amended: `parseNumber` never throws (it is a total function) and
returns 0 for unparseable input; when the extracted numeric token contains
both `,` and `.`, every comma is removed (commas are the thousands
separators regardless of which separator appears first) and the dot is the
decimal point; when only `,` appears, the first comma is treated as the
decimal point.  Stated as extensional equality with the amended-spec
parser. -/
theorem parseNumber_amended_ok :
    ∀ s : String, parseNumber s = parseFlexibleNumberAmendedSpec s := by
  intro s
  unfold parseNumber parseFlexibleNumberAmendedSpec
  cases h0 : (decide (jsTrim s = "") || decide (jsTrim s = "--")) with
  | true => simp [h0]
  | false =>
    simp only [h0, Bool.false_eq_true, if_false]
    cases hft : findToken (stripBom (jsTrim s).data) with
    | none => rfl
    | some token =>
      simp only [tokenValue]
      by_cases hc : ',' ∈ token
      · by_cases hd : '.' ∈ token
        · simp [hc, hd]
        · simp [hc, hd]
      · simp [hc]

/-! ### C2: the net-PnL invariant of the normalizers -/

/-- Every entry the BloFin loop body emits satisfies the exact identity
`net = realized − fees + funding`. -/
theorem blofinRow_net (o : Obj) (p : PreTrade) (h : blofinRow o = some p) :
    p.netPnlUsd = p.realizedPnlUsd - p.feesUsd + p.fundingUsd := by
  unfold blofinRow at h
  dsimp only at h
  split_ifs at h
  all_goals injection h with h
  all_goals subst h
  all_goals rfl

/-- Every entry the Kraken Futures account-log loop body emits satisfies the
exact identity. -/
theorem krakenFuturesLogRow_net (o : Obj) (p : PreTrade)
    (h : krakenFuturesLogRow o = some p) :
    p.netPnlUsd = p.realizedPnlUsd - p.feesUsd + p.fundingUsd := by
  unfold krakenFuturesLogRow at h
  dsimp only at h
  split_ifs at h
  all_goals injection h with h
  all_goals subst h
  all_goals rfl

/-- Membership in a normalizer's output comes from a successful loop-body
application. -/
theorem mem_normalized (body : Obj → Option PreTrade) (objs : List Obj) (e : Trade)
    (h : e ∈ ((objs.filterMap body).filter (fun p => p.datetime.isSome)).map
      PreTrade.toTrade) :
    ∃ o ∈ objs, ∃ p, body o = some p ∧ p.datetime.isSome ∧ e = p.toTrade := by
  rcases List.mem_map.1 h with ⟨p, hp, rfl⟩
  rcases List.mem_filter.1 hp with ⟨hp1, hp2⟩
  rcases List.mem_filterMap.1 hp1 with ⟨o, ho, hbo⟩
  exact ⟨o, ho, p, hbo, by simpa using hp2, rfl⟩

/-- C2: wherever the net value is derived rather than supplied — all BloFin
order-history entries, all Kraken Futures account-log entries, remote-snapshot
`rows` entries without a `netPnlUsd` field and legacy `closed_trades` entries
without a `net_pnl` field — the emitted entry satisfies
`|netPnl − (realizedPnl − fees + funding)| ≤ 1e−9` (in fact exactly); when
the snapshot supplies a net value, that value is stored unchanged. -/
theorem netPnl_invariant :
    (∀ objs : List Obj, ∀ e ∈ normalizeBlofin objs,
      |e.netPnlUsd - (e.realizedPnlUsd - e.feesUsd + e.fundingUsd)| ≤ 1 / 1000000000)
    ∧ (∀ objs : List Obj, ∀ e ∈ normalizeKrakenFuturesAccountLog objs,
      |e.netPnlUsd - (e.realizedPnlUsd - e.feesUsd + e.fundingUsd)| ≤ 1 / 1000000000)
    ∧ (∀ r : ApiRow, r.netPnlUsd = none →
        (apiRowTrade r).netPnlUsd
          = (apiRowTrade r).realizedPnlUsd - (apiRowTrade r).feesUsd
            + (apiRowTrade r).fundingUsd)
    ∧ (∀ (r : ApiRow) (v : ℚ), r.netPnlUsd = some v → (apiRowTrade r).netPnlUsd = v)
    ∧ (∀ (t : LegacyTrade) (e : Trade), t.net_pnl = none → legacyTradeRow t = some e →
        e.netPnlUsd = e.realizedPnlUsd - e.feesUsd + e.fundingUsd)
    ∧ (∀ (t : LegacyTrade) (v : ℚ) (e : Trade), t.net_pnl = some v →
        legacyTradeRow t = some e → e.netPnlUsd = v) := by
  refine ⟨?_, ?_, ?_, ?_, ?_, ?_⟩
  · intro objs e he
    rcases mem_normalized blofinRow objs e he with ⟨o, _, p, hbo, _, rfl⟩
    have hp := blofinRow_net o p hbo
    simp only [PreTrade.toTrade, hp, sub_self, abs_zero]
    norm_num
  · intro objs e he
    rcases mem_normalized krakenFuturesLogRow objs e he with ⟨o, _, p, hbo, _, rfl⟩
    have hp := krakenFuturesLogRow_net o p hbo
    simp only [PreTrade.toTrade, hp, sub_self, abs_zero]
    norm_num
  · intro r hr
    simp [apiRowTrade, hr]
  · intro r v hr
    simp [apiRowTrade, hr]
  · intro t e hnet h
    unfold legacyTradeRow at h
    dsimp only at h
    split_ifs at h
    all_goals injection h with h
    all_goals subst h
    all_goals simp [hnet]
  · intro t v e hnet h
    unfold legacyTradeRow at h
    dsimp only at h
    split_ifs at h
    all_goals injection h with h
    all_goals subst h
    all_goals simp [hnet]

/-- Concrete BloFin raw row used by the C2 witness. -/
def blofinObjW : Obj :=
  [("Status", "Filled"), ("PNL", "3"), ("Order Time", "01/02/2024 03:04:05"), ("Fee", "1")]

/-- The single ledger entry produced from `blofinObjW`. -/
def blofinEntryW : Trade := (normalizeBlofin [blofinObjW]).headD defaultTrade

/-- Concrete snapshot row (without a net field) used by the C2 witness. -/
def apiRowW : ApiRow :=
  { datetime := some "2024-01-01T00:00:00.000Z", exchange := none, symbol := none,
    marketType := none, side := none, qty := none, price := none,
    realizedPnlUsd := some 5, feesUsd := some 2, fundingUsd := some 1,
    netPnlUsd := none, notes := none, tradeKey := some "k" }

set_option maxRecDepth 10000 in
/-- C2 witness: the theorem applied to a concrete BloFin row and to a concrete
snapshot row lacking a net field. -/
theorem netPnl_invariant_witness :
    blofinEntryW ∈ normalizeBlofin [blofinObjW]
    ∧ |blofinEntryW.netPnlUsd
        - (blofinEntryW.realizedPnlUsd - blofinEntryW.feesUsd + blofinEntryW.fundingUsd)|
      ≤ 1 / 1000000000
    ∧ apiRowW.netPnlUsd = none
    ∧ (apiRowTrade apiRowW).netPnlUsd
        = (apiRowTrade apiRowW).realizedPnlUsd - (apiRowTrade apiRowW).feesUsd
          + (apiRowTrade apiRowW).fundingUsd := by
  have hlist : normalizeBlofin [blofinObjW] = [blofinEntryW] := rfl
  have hmem : blofinEntryW ∈ normalizeBlofin [blofinObjW] := by
    rw [hlist]
    exact List.mem_singleton.mpr rfl
  exact ⟨hmem, netPnl_invariant.1 [blofinObjW] blofinEntryW hmem, rfl,
    netPnl_invariant.2.2.1 apiRowW rfl⟩

/-! ### Store lemmas shared by C1 and C10 -/

/-- The fallback key is never empty (it contains seven `|` separators). -/
theorem fallbackKey_ne_empty (r : Trade) (idx : Nat) : fallbackKey r idx ≠ "" := by
  intro h
  have hbar : ("|" : String).length = 1 := rfl
  have hl : (fallbackKey r idx).length = 0 := by rw [h]; rfl
  rw [fallbackKey] at hl
  simp only [String.length_append, hbar] at hl
  omega

/-- After the key-normalization pass, every row has a non-empty key. -/
theorem withKeysFrom_key_ne_empty (rows : List Trade) :
    ∀ idx, ∀ r ∈ withKeysFrom idx rows, r.tradeKey ≠ "" := by
  induction rows with
  | nil => intro idx r hr; simp [withKeysFrom] at hr
  | cons t rest ih =>
    intro idx r hr
    simp only [withKeysFrom, List.mem_cons] at hr
    rcases hr with hr | hr
    · subst hr
      by_cases hk : t.tradeKey = ""
      · simpa [hk] using fallbackKey_ne_empty t idx
      · simp [hk]
    · exact ih (idx + 1) r hr

/-- Key normalization is the identity on rows that already carry keys. -/
theorem withKeysFrom_id (rows : List Trade) (h : ∀ r ∈ rows, r.tradeKey ≠ "") :
    ∀ idx, withKeysFrom idx rows = rows := by
  induction rows with
  | nil => intro idx; rfl
  | cons t rest ih =>
    intro idx
    have ht : t.tradeKey ≠ "" := h t (by simp)
    simp only [withKeysFrom, ht, if_false]
    rw [ih (fun r hr => h r (by simp [hr])) (idx + 1)]

/-- Key normalization rewrites exactly the keyless rows, with the positional
fallback key. -/
theorem withKeysFrom_getD (rows : List Trade) :
    ∀ idx i, i < rows.length → (rows.getD i defaultTrade).tradeKey = "" →
      (withKeysFrom idx rows).getD i defaultTrade
        = { rows.getD i defaultTrade with
            tradeKey := fallbackKey (rows.getD i defaultTrade) (idx + i) } := by
  induction rows with
  | nil => intro idx i hi; simp at hi
  | cons t rest ih =>
    intro idx i hi hk
    cases i with
    | zero =>
      simp only [List.getD_cons_zero] at hk ⊢
      simp [withKeysFrom, hk]
    | succ j =>
      have hj : j < rest.length := by simpa using hi
      have hk2 : (rest.getD j defaultTrade).tradeKey = "" := by simpa using hk
      have h3 := ih (idx + 1) j hj hk2
      rw [(by omega : idx + 1 + j = idx + (j + 1))] at h3
      simpa [withKeysFrom] using h3

/-- Everything in the store after a `bulkPut` was in the store before or in
the written batch. -/
theorem mem_bulkPut (rows : List Trade) :
    ∀ store e, e ∈ bulkPut store rows → e ∈ store ∨ e ∈ rows := by
  induction rows with
  | nil => intro store e he; exact Or.inl he
  | cons r rest ih =>
    intro store e he
    rcases ih (putTrade store r) e he with h | h
    · unfold putTrade at h
      split_ifs at h
      · rcases List.mem_map.1 h with ⟨x, hx, hxe⟩
        by_cases hkey : x.tradeKey = r.tradeKey
        · rw [if_pos hkey] at hxe
          exact Or.inr (by simp [← hxe])
        · rw [if_neg hkey] at hxe
          exact Or.inl (hxe ▸ hx)
      · rcases List.mem_append.1 h with h | h
        · exact Or.inl h
        · have : e = r := by simpa using h
          exact Or.inr (by simp [this])
    · exact Or.inr (List.mem_cons_of_mem r h)

/-- A `put` of a row whose key is absent appends the row. -/
theorem putTrade_fresh (store : List Trade) (r : Trade)
    (h : r.tradeKey ∉ store.map Trade.tradeKey) : putTrade store r = store ++ [r] := by
  have hnone : ∀ e ∈ store, e.tradeKey ≠ r.tradeKey := by
    intro e he hk
    exact h (List.mem_map.2 ⟨e, he, hk⟩)
  have hany : store.any (fun e => e.tradeKey = r.tradeKey) = false := by
    simp only [List.any_eq_false, decide_eq_true_eq]
    exact hnone
  simp [putTrade, hany]

/-- A `bulkPut` of rows with fresh, pairwise distinct keys appends the rows. -/
theorem bulkPut_fresh (rows : List Trade) :
    ∀ store, (∀ r ∈ rows, r.tradeKey ∉ store.map Trade.tradeKey) →
      (rows.map Trade.tradeKey).Nodup → bulkPut store rows = store ++ rows := by
  induction rows with
  | nil => intro store _ _; simp [bulkPut]
  | cons r rest ih =>
    intro store hfresh hnodup
    rw [List.map_cons, List.nodup_cons] at hnodup
    have h1 : putTrade store r = store ++ [r] :=
      putTrade_fresh store r (hfresh r (by simp))
    have h2 : bulkPut store (r :: rest) = bulkPut (store ++ [r]) rest := by
      simp [bulkPut, h1]
    rw [h2, ih (store ++ [r]) ?_ hnodup.2]
    · simp
    · intro x hx
      simp only [List.map_append, List.mem_append, List.map_cons, List.map_nil,
        List.mem_singleton, not_or]
      refine ⟨hfresh x (by simp [hx]), ?_⟩
      intro hk
      exact hnodup.1 (hk ▸ List.mem_map.2 ⟨x, hx, rfl⟩)

/-- Replacing by key is the identity when the replacement is already the
unique carrier of its key. -/
theorem map_replace_self (r : Trade) :
    ∀ store : List Trade, r ∈ store → (store.map Trade.tradeKey).Nodup →
      store.map (fun e => if e.tradeKey = r.tradeKey then r else e) = store := by
  intro store
  induction store with
  | nil => intro hr _; simp at hr
  | cons s rest ih =>
    intro hr hnodup
    rw [List.map_cons, List.nodup_cons] at hnodup
    rcases List.mem_cons.1 hr with hr0 | hr0
    · subst hr0
      have htail : ∀ e ∈ rest, e.tradeKey ≠ r.tradeKey := by
        intro e he hk
        exact hnodup.1 (hk ▸ List.mem_map.2 ⟨e, he, rfl⟩)
      simp only [List.map_cons, if_pos rfl]
      rw [List.map_congr_left (fun e he => if_neg (htail e he))]
      simp
    · have hs : s.tradeKey ≠ r.tradeKey := by
        intro hk
        exact hnodup.1 (by rw [hk]; exact List.mem_map.2 ⟨r, hr0, rfl⟩)
      simp only [List.map_cons, if_neg hs]
      rw [ih hr0 hnodup.2]

/-- Re-`put`ting an entry that is already stored, in a store with pairwise
distinct keys, leaves the store unchanged. -/
theorem putTrade_self (store : List Trade) (r : Trade) (hr : r ∈ store)
    (hnodup : (store.map Trade.tradeKey).Nodup) : putTrade store r = store := by
  unfold putTrade
  have hany : store.any (fun e => e.tradeKey = r.tradeKey) = true := by
    simp only [List.any_eq_true, decide_eq_true_eq]
    exact ⟨r, hr, rfl⟩
  simp only [hany, if_true]
  exact map_replace_self r store hr hnodup

/-- Re-`bulkPut`ting rows that are all already stored, in a store with
pairwise distinct keys, leaves the store unchanged. -/
theorem bulkPut_self (rows : List Trade) :
    ∀ store, (∀ r ∈ rows, r ∈ store) → (store.map Trade.tradeKey).Nodup →
      bulkPut store rows = store := by
  induction rows with
  | nil => intro store _ _; rfl
  | cons r rest ih =>
    intro store hmem hnodup
    have h1 : putTrade store r = store := putTrade_self store r (hmem r (by simp)) hnodup
    have h2 : bulkPut store (r :: rest) = bulkPut (putTrade store r) rest := rfl
    rw [h2, h1, ih store (fun x hx => hmem x (by simp [hx])) hnodup]

/-- Key normalization preserves the batch length. -/
theorem withKeysFrom_length (rows : List Trade) :
    ∀ idx, (withKeysFrom idx rows).length = rows.length := by
  induction rows with
  | nil => intro idx; rfl
  | cons t rest ih => intro idx; simp [withKeysFrom, ih]

/-- The snapshot key-repair pass leaves no empty key. -/
theorem apiEnsureKeysFrom_key_ne_empty (ts : List Trade) :
    ∀ idx, ∀ e ∈ apiEnsureKeysFrom idx ts, e.tradeKey ≠ "" := by
  induction ts with
  | nil => intro idx e he; simp [apiEnsureKeysFrom] at he
  | cons t rest ih =>
    intro idx e he
    simp only [apiEnsureKeysFrom, List.mem_cons] at he
    rcases he with he | he
    · subst he
      by_cases hk : t.tradeKey = ""
      · simp only [hk, if_true]
        intro h
        have hbar : ("|" : String).length = 1 := rfl
        have hemp : ("" : String).length = 0 := rfl
        have hl := congrArg String.length h
        simp only [String.length_append, hbar, hemp] at hl
        omega
      · simp [hk]
    · exact ih (idx + 1) e he

/-- A legacy snapshot entry always carries the non-empty `KRAKENF_API|…` key. -/
theorem legacyTradeRow_key_ne_empty (t : LegacyTrade) (e : Trade)
    (h : legacyTradeRow t = some e) : e.tradeKey ≠ "" := by
  unfold legacyTradeRow at h
  dsimp only at h
  split_ifs at h
  all_goals injection h with h
  all_goals subst h
  all_goals intro hk
  all_goals
    have hpre : ("KRAKENF_API|" : String).length = 12 := rfl
  all_goals
    have hemp : ("" : String).length = 0 := rfl
  all_goals
    have hl := congrArg String.length hk
  all_goals simp only [String.length_append, hpre, hemp] at hl
  all_goals omega

/-! ### C10: the store-key invariant -/

/-- C10: every row committed by `upsertTrades` carries a non-empty `tradeKey`:
rows arriving without a key receive the deterministic positional fallback key
(`exchange|marketType|symbol|datetime|netPnl|fees|funding|index`), every row
of the normalized batch has a non-empty key, and therefore a store whose
entries all have non-empty keys still has only non-empty keys after any
upsert; the remote-snapshot normalizer (both the `rows` shape and the legacy
`closed_trades` shape) also never emits an empty key. -/
theorem storeKey_invariant :
    (∀ store rows, (∀ e ∈ store, e.tradeKey ≠ "") →
        ∀ e ∈ (Part000.upsertTrades store rows).1, e.tradeKey ≠ "")
    ∧ (∀ rows, ∀ e ∈ withKeys rows, e.tradeKey ≠ "")
    ∧ (∀ rows i, i < rows.length → (rows.getD i defaultTrade).tradeKey = "" →
        (withKeys rows).getD i defaultTrade
          = { rows.getD i defaultTrade with
              tradeKey := fallbackKey (rows.getD i defaultTrade) i })
    ∧ (∀ rows : List ApiRow, ∀ e ∈ normalizeApiRowsRows rows, e.tradeKey ≠ "")
    ∧ (∀ ts : List LegacyTrade, ∀ e ∈ normalizeApiRowsLegacy ts, e.tradeKey ≠ "") := by
  refine ⟨?_, ?_, ?_, ?_, ?_⟩
  · intro store rows hstore e he
    unfold Part000.upsertTrades at he
    dsimp only at he
    split_ifs at he
    · rcases mem_bulkPut _ _ _ he with h | h
      · exact hstore e h
      · have := (List.mem_filter.1 h).2
        simpa using this
    · exact hstore e he
  · intro rows e he
    exact withKeysFrom_key_ne_empty rows 0 e he
  · intro rows i hi hk
    have := withKeysFrom_getD rows 0 i hi hk
    simpa [withKeys] using this
  · intro rows e he
    unfold normalizeApiRowsRows at he
    have := (List.mem_filter.1 he).1
    exact apiEnsureKeysFrom_key_ne_empty _ 0 e this
  · intro ts e he
    rcases List.mem_filterMap.1 he with ⟨t, _, ht⟩
    exact legacyTradeRow_key_ne_empty t e ht

/-- C10 witness: the invariant applied to a concrete one-row upsert into a
concrete store, with the fallback-key clause at a keyless row. -/
theorem storeKey_invariant_witness :
    ((∀ e ∈ ([{ defaultTrade with tradeKey := "K" }] : List Trade), e.tradeKey ≠ "")
      ∧ ∀ e ∈ (Part000.upsertTrades [{ defaultTrade with tradeKey := "K" }]
          [defaultTrade]).1, e.tradeKey ≠ "")
    ∧ (0 < ([defaultTrade] : List Trade).length
       ∧ (([defaultTrade] : List Trade).getD 0 defaultTrade).tradeKey = ""
       ∧ (withKeys [defaultTrade]).getD 0 defaultTrade
          = { ([defaultTrade] : List Trade).getD 0 defaultTrade with
              tradeKey := fallbackKey (([defaultTrade] : List Trade).getD 0 defaultTrade) 0 }) := by
  have hstore : ∀ e ∈ ([{ defaultTrade with tradeKey := "K" }] : List Trade),
      e.tradeKey ≠ "" := by
    intro e he
    rw [List.mem_singleton.1 he]
    intro h
    exact absurd (congrArg String.length h) (by decide)
  refine ⟨⟨hstore, storeKey_invariant.1 _ [defaultTrade] hstore⟩,
    Nat.zero_lt_one, rfl, storeKey_invariant.2.2.1 [defaultTrade] 0 Nat.zero_lt_one rfl⟩

/-! ### C1: upsert counting and idempotence -/

/-- A stored entry with key `"K"` and net 1, used by C1's counterexample. -/
def trKeyed : Trade := { defaultTrade with tradeKey := "K", netPnlUsd := 1 }

/-- A new arrival with the same key `"K"` but net 2. -/
def trKeyedV2 : Trade := { defaultTrade with tradeKey := "K", netPnlUsd := 2 }

/-- C1 counterexample: re-upserting an entry whose key is already stored is
*not* reported as `added = 0 / skipped = 1` by the `part_000` `upsertTrades`
(it reports `added = 1, skipped = 0`); and the `site/app.js` `upsertTrades`
does *not* overwrite the stored entry for an existing key (the store still
holds the old value). -/
theorem upsertTrades_count_cex :
    ¬ ((Part000.upsertTrades [trKeyed] [trKeyed]).2.added = 0
        ∧ (Part000.upsertTrades [trKeyed] [trKeyed]).2.skipped = 1)
    ∧ (SiteApp.upsertTrades [trKeyed] [trKeyedV2]).1 = [trKeyed]
    ∧ trKeyedV2 ≠ trKeyed := by
  refine ⟨?_, rfl, ?_⟩
  · intro hcl
    have ha : (Part000.upsertTrades [trKeyed] [trKeyed]).2.added = 1 := rfl
    rw [ha] at hcl
    exact absurd hcl.1 one_ne_zero
  · intro h
    have := congrArg Trade.netPnlUsd h
    norm_num [trKeyed, trKeyedV2, defaultTrade] at this

/-- C1 amended: in `part_000`, `upsertTrades` counts *every* row of the batch
as `added` and none as `skipped` (each row receives a key, so the `valid`
filter keeps all of them) — re-importing an identical batch therefore returns
`added = N` again, not 0 — while `bulkPut` overwrites by key, so after a
first import of a batch with pairwise-distinct keys the store holds exactly
the batch, a second identical import leaves the store bit-for-bit unchanged,
and the store size stays N.  In the `site/app.js` variant the report is
`added = 0, skipped = N` for previously-seen keys, but existing entries are
left untouched rather than overwritten. -/
theorem upsertTrades_amended_ok :
    (∀ store rows, (Part000.upsertTrades store rows).2.added = rows.length
        ∧ (Part000.upsertTrades store rows).2.skipped = 0)
    ∧ (∀ rows, (∀ r ∈ rows, r.tradeKey ≠ "") → (rows.map Trade.tradeKey).Nodup →
        (Part000.upsertTrades [] rows).1 = rows
        ∧ Part000.upsertTrades rows rows = (rows, { added := rows.length, skipped := 0 })
        ∧ (Part000.upsertTrades [] rows).1.length = rows.length)
    ∧ (∀ store rows, (∀ r ∈ rows, r.tradeKey ∈ store.map Trade.tradeKey) →
        SiteApp.upsertTrades store rows = (store, { added := 0, skipped := rows.length })) := by
  have hvalid_all : ∀ rows : List Trade,
      (withKeys rows).filter (fun r => r.tradeKey ≠ "") = withKeys rows := by
    intro rows
    refine List.filter_eq_self.2 ?_
    intro r hr
    simpa using withKeysFrom_key_ne_empty rows 0 r hr
  refine ⟨?_, ?_, ?_⟩
  · intro store rows
    unfold Part000.upsertTrades
    dsimp only
    rw [hvalid_all rows]
    constructor
    · exact withKeysFrom_length rows 0
    · exact Nat.sub_self _
  · intro rows hkeys hnodup
    have hnorm : withKeys rows = rows := withKeysFrom_id rows hkeys 0
    have hfil : rows.filter (fun r => r.tradeKey ≠ "") = rows :=
      List.filter_eq_self.2 (fun r hr => by simpa using hkeys r hr)
    have hfirst : (Part000.upsertTrades [] rows).1 = rows := by
      unfold Part000.upsertTrades
      dsimp only
      rw [hnorm, hfil]
      by_cases hlen : rows.length ≠ 0
      · rw [if_pos hlen]
        have := bulkPut_fresh rows [] (by simp) hnodup
        simpa using this
      · rw [if_neg hlen]
        push_neg at hlen
        exact (List.length_eq_zero.1 hlen).symm
    refine ⟨hfirst, ?_, by rw [hfirst]⟩
    · unfold Part000.upsertTrades
      dsimp only
      rw [hnorm, hfil]
      have hself : bulkPut rows rows = rows :=
        bulkPut_self rows rows (fun x hx => hx) hnodup
      by_cases hlen : rows.length ≠ 0
      · rw [if_pos hlen, hself]
        simp
      · rw [if_neg hlen]
        simp
  · intro store rows hmem
    unfold SiteApp.upsertTrades
    dsimp only
    have hfil : rows.filter
        (fun r => r.tradeKey ≠ "" && !((store.map (fun e => e.tradeKey)).contains r.tradeKey))
        = [] := by
      refine List.filter_eq_nil_iff.2 ?_
      intro r hr
      have := hmem r hr
      simp [this]
    rw [hfil]
    simp

/-- C1 witness: the amended theorem applied to a concrete two-row batch with
distinct keys: first import yields the batch itself, the identical re-import
changes nothing and reports `added = 2`; the `app.js` variant reports
`added = 0` on the re-import. -/
theorem upsertTrades_amended_ok_witness :
    (Part000.upsertTrades []
        [trKeyed, { defaultTrade with tradeKey := "L" }]).1
      = [trKeyed, { defaultTrade with tradeKey := "L" }]
    ∧ Part000.upsertTrades [trKeyed, { defaultTrade with tradeKey := "L" }]
        [trKeyed, { defaultTrade with tradeKey := "L" }]
      = ([trKeyed, { defaultTrade with tradeKey := "L" }], { added := 2, skipped := 0 })
    ∧ SiteApp.upsertTrades [trKeyed, { defaultTrade with tradeKey := "L" }]
        [trKeyed, { defaultTrade with tradeKey := "L" }]
      = ([trKeyed, { defaultTrade with tradeKey := "L" }], { added := 0, skipped := 2 }) := by
  have hkeys : ∀ r ∈ [trKeyed, ({ defaultTrade with tradeKey := "L" } : Trade)],
      r.tradeKey ≠ "" := by
    intro r hr
    rcases List.mem_cons.1 hr with h | h
    · rw [h]; intro hc; exact absurd (congrArg String.length hc) (by decide)
    · rw [List.mem_singleton.1 h]
      intro hc
      exact absurd (congrArg String.length hc) (by decide)
  have hnodup : (([trKeyed, { defaultTrade with tradeKey := "L" }] : List Trade).map
      Trade.tradeKey).Nodup := by
    simp [trKeyed, defaultTrade]
  have h2 := upsertTrades_amended_ok.2.1 _ hkeys hnodup
  have h3 := upsertTrades_amended_ok.2.2
    [trKeyed, { defaultTrade with tradeKey := "L" }]
    [trKeyed, { defaultTrade with tradeKey := "L" }]
    (by
      intro r hr
      rcases List.mem_cons.1 hr with h | h
      · rw [h]; simp [trKeyed]
      · rw [List.mem_singleton.1 h]; simp)
  exact ⟨h2.1, by simpa using h2.2.1, by simpa using h3⟩

/-! ### C4: format detection -/

/-- The conjunctive signature of the BloFin order-history format. -/
def sigBlofin : List String := ["Underlying Asset", "Order Time", "PNL", "Fee"]

/-- The conjunctive signature of the Kraken spot-trades format. -/
def sigKrakenTrades : List String := ["txid", "ordertype", "pair", "time"]

/-- The conjunctive core of the Kraken Futures account-log signature (plus
one of `contract`/`symbol`). -/
def sigKrakenFLog : List String := ["uid", "dateTime", "type", "change"]

/-- All signature names present among the normalized headers, by exact
comparison. -/
def allPresent (h sig : List String) : Bool := sig.all (fun n => h.contains n)

/-- All signature names present under *case-insensitive* comparison — the
comparison the claim asserts.  Modelled from the spec: "case-insensitive,
BOM-stripped". -/
def allPresentCI (h sig : List String) : Bool :=
  sig.all (fun n => h.any (fun x => jsToLower x = jsToLower n))

/-- C4 counterexample: a header set that carries every BloFin signature
column in lower case matches the BloFin rule under the claimed
case-insensitive comparison, yet `detectCsvType` returns `UNKNOWN` — the
comparison the code performs is exact (case-sensitive), so the first
case-insensitively matching rule does not win. -/
theorem detectCsvType_case_cex :
    allPresentCI (detectNorm ["underlying asset", "order time", "pnl", "fee"]) sigBlofin = true
    ∧ detectCsvType ["underlying asset", "order time", "pnl", "fee"] = CsvType.UNKNOWN := by
  exact ⟨rfl, rfl⟩

/-- The BloFin rule is exactly "all signature names present". -/
theorem blofinCond_eq_allPresent (h : List String) :
    blofinCond h = allPresent h sigBlofin := by
  simp [blofinCond, allPresent, sigBlofin, Bool.and_assoc]

/-- The Kraken spot rule is exactly "all signature names present". -/
theorem krakenCond_eq_allPresent (h : List String) :
    krakenCond h = allPresent h sigKrakenTrades := by
  simp [krakenCond, allPresent, sigKrakenTrades, Bool.and_assoc]

/-- The Kraken Futures log rule is its conjunctive core plus the
`contract`/`symbol` disjunct. -/
theorem kflCond_eq_allPresent (h : List String) :
    kflCond h = (allPresent h sigKrakenFLog
      && (h.contains "contract" || h.contains "symbol")) := by
  simp [kflCond, allPresent, sigKrakenFLog, Bool.and_assoc]

/-- C4 amended: detection compares the trimmed, BOM-stripped headers
*exactly* (case-sensitively).  A known tag is returned iff all of that
format's signature columns are present exactly and no earlier rule matched
(fixed rule order, first match wins); a header set matching no rule yields
`UNKNOWN`; and an import whose detection yields `UNKNOWN` is surfaced as a
user-facing error carrying the headers while the store is returned unchanged
(zero entries upserted). -/
theorem detectCsvType_exact_ok :
    (∀ hs, detectCsvType hs = CsvType.BLOFIN_ORDER_HISTORY ↔
        allPresent (detectNorm hs) sigBlofin = true)
    ∧ (∀ hs, detectCsvType hs = CsvType.KRAKEN_TRADES ↔
        (allPresent (detectNorm hs) sigBlofin = false
          ∧ allPresent (detectNorm hs) sigKrakenTrades = true))
    ∧ (∀ hs, detectCsvType hs = CsvType.KRAKEN_FUTURES_ACCOUNT_LOG ↔
        (allPresent (detectNorm hs) sigBlofin = false
          ∧ allPresent (detectNorm hs) sigKrakenTrades = false
          ∧ (allPresent (detectNorm hs) sigKrakenFLog
              && ((detectNorm hs).contains "contract"
                || (detectNorm hs).contains "symbol")) = true))
    ∧ (∀ hs, detectCsvType hs = CsvType.UNKNOWN ↔
        (allPresent (detectNorm hs) sigBlofin = false
          ∧ allPresent (detectNorm hs) sigKrakenTrades = false
          ∧ (allPresent (detectNorm hs) sigKrakenFLog
              && ((detectNorm hs).contains "contract"
                || (detectNorm hs).contains "symbol")) = false))
    ∧ (∀ store text hs, (importCsvText store text).2 = ImportOutcome.unknownFormat hs →
        (importCsvText store text).1 = store) := by
  have main : ∀ hs,
      (detectCsvType hs = CsvType.BLOFIN_ORDER_HISTORY ↔
        allPresent (detectNorm hs) sigBlofin = true)
      ∧ (detectCsvType hs = CsvType.KRAKEN_TRADES ↔
        (allPresent (detectNorm hs) sigBlofin = false
          ∧ allPresent (detectNorm hs) sigKrakenTrades = true))
      ∧ (detectCsvType hs = CsvType.KRAKEN_FUTURES_ACCOUNT_LOG ↔
        (allPresent (detectNorm hs) sigBlofin = false
          ∧ allPresent (detectNorm hs) sigKrakenTrades = false
          ∧ (allPresent (detectNorm hs) sigKrakenFLog
              && ((detectNorm hs).contains "contract"
                || (detectNorm hs).contains "symbol")) = true))
      ∧ (detectCsvType hs = CsvType.UNKNOWN ↔
        (allPresent (detectNorm hs) sigBlofin = false
          ∧ allPresent (detectNorm hs) sigKrakenTrades = false
          ∧ (allPresent (detectNorm hs) sigKrakenFLog
              && ((detectNorm hs).contains "contract"
                || (detectNorm hs).contains "symbol")) = false)) := by
    intro hs
    have e1 := blofinCond_eq_allPresent (detectNorm hs)
    have e2 := krakenCond_eq_allPresent (detectNorm hs)
    have e3 := kflCond_eq_allPresent (detectNorm hs)
    cases h1 : blofinCond (detectNorm hs) <;>
      cases h2 : krakenCond (detectNorm hs) <;>
        cases h3 : kflCond (detectNorm hs) <;>
          refine ⟨?_, ?_, ?_, ?_⟩ <;>
            (rw [e1] at h1; rw [e2] at h2; rw [e3] at h3;
              simp only [detectCsvType, e1, e2, e3, h1, h2, h3];
              simp [h1, h2, h3])
  refine ⟨fun hs => (main hs).1, fun hs => (main hs).2.1, fun hs => (main hs).2.2.1,
    fun hs => (main hs).2.2.2, ?_⟩
  intro store text hs hout
  unfold importCsvText at hout ⊢
  cases hrows : parseCsv text with
  | nil => rfl
  | cons hrow body =>
    rw [hrows] at hout
    cases hdet : detectCsvType (headerNames hrow) <;> simp [hdet] at hout ⊢

/-- C4 witness: the amended characterization applied to the exact BloFin
header set (detection succeeds) and to a concrete unknown CSV text (store
returned unchanged). -/
theorem detectCsvType_exact_ok_witness :
    detectCsvType ["Underlying Asset", "Order Time", "PNL", "Fee"]
        = CsvType.BLOFIN_ORDER_HISTORY
    ∧ (importCsvText [trKeyed] "a,b\nc,d").2
        = ImportOutcome.unknownFormat ["a", "b"]
    ∧ (importCsvText [trKeyed] "a,b\nc,d").1 = [trKeyed] := by
  refine ⟨(detectCsvType_exact_ok.1 _).2 rfl, rfl, ?_⟩
  exact detectCsvType_exact_ok.2.2.2.2 [trKeyed] "a,b\nc,d" ["a", "b"] rfl

/-! ### C5: the slash-date parser -/

/-- C5 counterexample: `"01/02/2024 00:00:00"` is parsed to January 2nd
(first field = month), not February 1st as the claimed `DD/MM/YYYY`
interpretation requires. -/
theorem toIsoDateTimeFromBlofin_ddmm_cex :
    toIsoDateTimeFromBlofin "01/02/2024 00:00:00" = some "2024-01-02T00:00:00.000Z"
    ∧ ("2024-01-02T00:00:00.000Z" : String) ≠ "2024-02-01T00:00:00.000Z" := by
  exact ⟨rfl, by decide⟩

/-- Digit characters are recognized by the embedding's digit class. -/
theorem digitChar_isDigit : ∀ k : Nat, k < 10 → isDigitChar (Nat.digitChar k) = true := by
  decide

/-- Digit characters decode to their value. -/
theorem digitChar_val : ∀ k : Nat, k < 10 → digitVal (Nat.digitChar k) = k := by
  decide

/-- Digit characters are not whitespace. -/
theorem digitChar_not_ws : ∀ k : Nat, k < 10 → (Nat.digitChar k).isWhitespace = false := by
  decide

/-- Reading two digits off a zero-padded rendering recovers the number. -/
theorem digit2_pad2 (n : Nat) (hn : n < 100) (rest : List Char) :
    digit2 ((pad2 n).data ++ rest) = some (n, rest) := by
  have h1 : n / 10 < 10 := by omega
  have h2 : n % 10 < 10 := Nat.mod_lt _ (by norm_num)
  have e : (pad2 n).data = [Nat.digitChar (n / 10), Nat.digitChar (n % 10)] := rfl
  rw [e]
  simp only [List.cons_append, List.nil_append, digit2,
    digitChar_isDigit _ h1, digitChar_isDigit _ h2, Bool.and_self, if_true,
    digitChar_val _ h1, digitChar_val _ h2]
  have hsum : n / 10 * 10 + n % 10 = n := by omega
  rw [hsum]

/-- Reading four digits off a zero-padded rendering recovers the number. -/
theorem digit4_pad4 (y : Nat) (hy : y < 10000) (rest : List Char) :
    digit4 ((pad4 y).data ++ rest) = some (y, rest) := by
  have h1 : y / 100 < 100 := by omega
  have h2 : y % 100 < 100 := Nat.mod_lt _ (by norm_num)
  have e : (pad4 y).data = (pad2 (y / 100)).data ++ (pad2 (y % 100)).data := by
    simp [pad4]
  rw [digit4, e, List.append_assoc, digit2_pad2 _ h1]
  dsimp only
  rw [digit2_pad2 _ h2]
  dsimp only
  have hsum : y / 100 * 100 + y % 100 = y := by omega
  rw [hsum]

/-- Parsing the rendered `MM/DD/YYYY HH:MM:SS` string recovers the six
components in order. -/
theorem parseSlashDateTime_slashString (c1 c2 y h mi s : Nat)
    (h1 : c1 < 100) (h2 : c2 < 100) (hy : y < 10000) (hh : h < 100)
    (hmi : mi < 100) (hs : s < 100) :
    parseSlashDateTime (slashString c1 c2 y h mi s).data
      = some (c1, c2, y, h, mi, s) := by
  have hd : h / 10 < 10 := by omega
  have epadh : (pad2 h).data = [Nat.digitChar (h / 10), Nat.digitChar (h % 10)] := rfl
  have hdw : List.dropWhile (fun x => x.isWhitespace)
      ((pad2 h).data ++ ':' :: ((pad2 mi).data ++ ':' :: (pad2 s).data))
      = (pad2 h).data ++ ':' :: ((pad2 mi).data ++ ':' :: (pad2 s).data) := by
    rw [epadh]
    simp [List.dropWhile_cons, digitChar_not_ws _ hd]
  have hdata : (slashString c1 c2 y h mi s).data
      = (pad2 c1).data ++ '/' :: ((pad2 c2).data ++ '/' :: ((pad4 y).data
        ++ ' ' :: ((pad2 h).data ++ ':' :: ((pad2 mi).data ++ ':' :: (pad2 s).data)))) := by
    simp [slashString, String.data_append]
  have hsp : (' ' : Char).isWhitespace = true := rfl
  have hlast : digit2 (pad2 s).data = some (s, []) := by
    have hx := digit2_pad2 s hs []
    simpa using hx
  rw [hdata, parseSlashDateTime]
  simp only [Option.bind_eq_bind, digit2_pad2 _ h1, Option.some_bind, expectChar,
    beq_self_eq_true, if_true, digit2_pad2 _ h2, digit4_pad4 _ hy, expectWs1,
    hsp, hdw, digit2_pad2 _ hh, digit2_pad2 _ hmi, hlast]
  simp

/-- C5 amended: the slash-date parser interprets its input as
`MM/DD/YYYY HH:mm:ss` — the *first* field is the month (entering `Date.UTC`
as `month − 1`), the *second* is the day of the month — in UTC; any string
not matching the two-digit/two-digit/four-digit slash pattern with a time
component yields `null`; and every entry emitted by `normalizeBlofin` carries
a datetime that came from a successful parse (rows with a `null` timestamp
are discarded). -/
theorem toIsoDateTimeFromBlofin_mmdd_ok :
    (∀ c1 c2 y h mi s : Nat, c1 < 100 → c2 < 100 → y < 10000 → h < 100 →
        mi < 100 → s < 100 →
        toIsoDateTimeFromBlofin (slashString c1 c2 y h mi s)
          = some (isoOfEpochMs (jsUtcEpochMs y ((c1 : Int) - 1) c2 h mi s)))
    ∧ (∀ str : String, parseSlashDateTime str.data = none →
        toIsoDateTimeFromBlofin str = none)
    ∧ (∀ objs : List Obj, ∀ e ∈ normalizeBlofin objs,
        ∃ raw, toIsoDateTimeFromBlofin raw = some e.datetime) := by
  refine ⟨?_, ?_, ?_⟩
  · intro c1 c2 y h mi s h1 h2 hy hh hmi hs
    rw [toIsoDateTimeFromBlofin,
      parseSlashDateTime_slashString c1 c2 y h mi s h1 h2 hy hh hmi hs]
  · intro str hp
    rw [toIsoDateTimeFromBlofin, hp]
  · intro objs e he
    rcases mem_normalized blofinRow objs e he with ⟨o, _, p, hbo, hsome, rfl⟩
    have hdt : p.datetime = toIsoDateTimeFromBlofin (getField o "Order Time") := by
      unfold blofinRow at hbo
      dsimp only at hbo
      split_ifs at hbo
      all_goals injection hbo with hbo
      all_goals subst hbo
      all_goals rfl
    refine ⟨getField o "Order Time", ?_⟩
    rcases Option.isSome_iff_exists.1 hsome with ⟨iso, hiso⟩
    rw [← hdt, hiso]
    simp [PreTrade.toTrade, hiso]

/-- C5 witness: the amended theorem applied to the concrete input
`01/02/2024 03:04:05` (month 1, day 2) and to a non-matching string. -/
theorem toIsoDateTimeFromBlofin_mmdd_ok_witness :
    toIsoDateTimeFromBlofin (slashString 1 2 2024 3 4 5)
      = some (isoOfEpochMs (jsUtcEpochMs 2024 ((1 : Int) - 1) 2 3 4 5))
    ∧ toIsoDateTimeFromBlofin "not a date" = none := by
  refine ⟨toIsoDateTimeFromBlofin_mmdd_ok.1 1 2 2024 3 4 5 (by decide) (by decide)
    (by decide) (by decide) (by decide) (by decide), ?_⟩
  exact toIsoDateTimeFromBlofin_mmdd_ok.2.1 "not a date" rfl

/-! ### C7: bucket conservation -/

/-- Assigning a trade to a day bucket never changes the bucket keys. -/
theorem addToDay_keys (k : String) (n : ℚ) :
    ∀ bs : List DayBucket, (addToDay bs k n).map DayBucket.key = bs.map DayBucket.key := by
  intro bs
  induction bs with
  | nil => rfl
  | cons b rest ih =>
    by_cases hk : b.key = k
    · simp [addToDay, hk]
    · simp [addToDay, hk, ih]

/-- Assigning a trade adds its net to the bucket total exactly when its key
is one of the bucket keys. -/
theorem addToDay_sum (k : String) (n : ℚ) :
    ∀ bs : List DayBucket,
      ((addToDay bs k n).map DayBucket.net).sum
        = (bs.map DayBucket.net).sum + (if k ∈ bs.map DayBucket.key then n else 0) := by
  intro bs
  induction bs with
  | nil => simp [addToDay]
  | cons b rest ih =>
    by_cases hk : b.key = k
    · rw [show addToDay (b :: rest) k n = { b with net := b.net + n } :: rest from by
        simp [addToDay, hk]]
      have hm : k ∈ (b :: rest).map DayBucket.key := by
        simp [List.map_cons, ← hk]
      rw [if_pos hm]
      simp only [List.map_cons, List.sum_cons]
      ring
    · rw [show addToDay (b :: rest) k n = b :: addToDay rest k n from by
        simp [addToDay, hk]]
      have hne : k ≠ b.key := fun h => hk h.symm
      simp only [List.map_cons, List.sum_cons, ih]
      by_cases hmem : k ∈ rest.map DayBucket.key
      · rw [if_pos hmem,
          if_pos (show k ∈ b.key :: rest.map DayBucket.key from List.mem_cons_of_mem _ hmem)]
        ring
      · rw [if_neg hmem, if_neg (show k ∉ b.key :: rest.map DayBucket.key from by
          simp [List.mem_cons, hne, hmem])]
        ring

/-- A bucket whose key a trade does not carry is untouched by the
assignment. -/
theorem mem_addToDay_of_ne (k : String) (n : ℚ) (b : DayBucket) (hk : k ≠ b.key) :
    ∀ bs : List DayBucket, b ∈ addToDay bs k n → b ∈ bs := by
  intro bs
  induction bs with
  | nil => intro h; simpa [addToDay] using h
  | cons c rest ih =>
    intro h
    by_cases hc : c.key = k
    · simp only [addToDay, hc, if_pos rfl] at h
      rcases List.mem_cons.1 h with h0 | h0
      · exact absurd (congrArg DayBucket.key h0).symm (by simpa [hc] using hk)
      · exact List.mem_cons_of_mem c h0
    · simp only [addToDay, hc, if_false] at h
      rcases List.mem_cons.1 h with h0 | h0
      · exact h0 ▸ List.mem_cons_self c rest
      · exact List.mem_cons_of_mem c (ih h0)

/-- Folding the trades over the day buckets adds exactly the nets of the
trades whose key belongs to the bucket keys. -/
theorem dayFold_sum (trades : List Trade) :
    ∀ bs : List DayBucket,
      ((trades.foldl (fun bs t => addToDay bs (tradeDayKey t.datetime) t.netPnlUsd) bs).map
          DayBucket.net).sum
        = (bs.map DayBucket.net).sum
          + ((trades.filter (fun t =>
              tradeDayKey t.datetime ∈ bs.map DayBucket.key)).map Trade.netPnlUsd).sum := by
  induction trades with
  | nil => intro bs; simp
  | cons t rest ih =>
    intro bs
    have hkeys := addToDay_keys (tradeDayKey t.datetime) t.netPnlUsd bs
    have hstep := addToDay_sum (tradeDayKey t.datetime) t.netPnlUsd bs
    simp only [List.foldl_cons]
    rw [ih (addToDay bs (tradeDayKey t.datetime) t.netPnlUsd), hstep, hkeys,
      List.filter_cons]
    by_cases hmem : tradeDayKey t.datetime ∈ bs.map DayBucket.key
    · rw [if_pos hmem, if_pos (by simpa using hmem)]
      simp only [List.map_cons, List.sum_cons]
      ring
    · rw [if_neg hmem, if_neg (by simpa using hmem)]
      ring

/-- Day buckets untouched by every trade keep their initial value. -/
theorem dayFold_untouched (trades : List Trade) :
    ∀ bs b, b ∈ trades.foldl (fun bs t => addToDay bs (tradeDayKey t.datetime) t.netPnlUsd) bs →
      (∀ t ∈ trades, tradeDayKey t.datetime ≠ b.key) → b ∈ bs := by
  induction trades with
  | nil => intro bs b hb _; exact hb
  | cons t rest ih =>
    intro bs b hb hne
    have h1 := ih (addToDay bs (tradeDayKey t.datetime) t.netPnlUsd) b hb
      (fun x hx => hne x (by simp [hx]))
    exact mem_addToDay_of_ne _ _ b (hne t (by simp)) bs h1

/-- Every pre-populated day bucket starts at net 0. -/
theorem dayInit_net_zero (y m0 d : Int) (n : Nat) :
    ∀ b ∈ dayInit y m0 d n, b.net = 0 := by
  intro b hb
  rcases List.mem_map.1 hb with ⟨j, _, rfl⟩
  rfl

/-- Assignment preserves the bucket count. -/
theorem addToDay_length (k : String) (q : ℚ) :
    ∀ bs : List DayBucket, (addToDay bs k q).length = bs.length := by
  intro bs
  induction bs with
  | nil => rfl
  | cons b rest ih =>
    by_cases hk : b.key = k <;> simp [addToDay, hk, ih]

/-- The fold preserves the bucket count. -/
theorem dayFold_length (trades : List Trade) :
    ∀ bs : List DayBucket,
      (trades.foldl (fun bs t => addToDay bs (tradeDayKey t.datetime) t.netPnlUsd) bs).length
        = bs.length := by
  induction trades with
  | nil => intro bs; rfl
  | cons t rest ih =>
    intro bs
    simp only [List.foldl_cons]
    rw [ih, addToDay_length]

/-- Monthly analogue of `addToDay_keys`. -/
theorem addToMonth_keys (k : String) (n f fu : ℚ) :
    ∀ bs : List MonthBucket,
      (addToMonth bs k n f fu).map MonthBucket.key = bs.map MonthBucket.key := by
  intro bs
  induction bs with
  | nil => rfl
  | cons b rest ih =>
    by_cases hk : b.key = k
    · simp [addToMonth, hk]
    · simp [addToMonth, hk, ih]

/-- Monthly analogue of `addToDay_sum`. -/
theorem addToMonth_sum (k : String) (n f fu : ℚ) :
    ∀ bs : List MonthBucket,
      ((addToMonth bs k n f fu).map MonthBucket.net).sum
        = (bs.map MonthBucket.net).sum + (if k ∈ bs.map MonthBucket.key then n else 0) := by
  intro bs
  induction bs with
  | nil => simp [addToMonth]
  | cons b rest ih =>
    by_cases hk : b.key = k
    · rw [show addToMonth (b :: rest) k n f fu
          = { b with net := b.net + n, fees := b.fees + f, funding := b.funding + fu } :: rest
        from by simp [addToMonth, hk]]
      have hm : k ∈ (b :: rest).map MonthBucket.key := by
        simp [List.map_cons, ← hk]
      rw [if_pos hm]
      simp only [List.map_cons, List.sum_cons]
      ring
    · rw [show addToMonth (b :: rest) k n f fu = b :: addToMonth rest k n f fu from by
        simp [addToMonth, hk]]
      have hne : k ≠ b.key := fun h => hk h.symm
      simp only [List.map_cons, List.sum_cons, ih]
      by_cases hmem : k ∈ rest.map MonthBucket.key
      · rw [if_pos hmem,
          if_pos (show k ∈ b.key :: rest.map MonthBucket.key from List.mem_cons_of_mem _ hmem)]
        ring
      · rw [if_neg hmem, if_neg (show k ∉ b.key :: rest.map MonthBucket.key from by
          simp [List.mem_cons, hne, hmem])]
        ring

/-- Monthly analogue of `mem_addToDay_of_ne`. -/
theorem mem_addToMonth_of_ne (k : String) (n f fu : ℚ) (b : MonthBucket) (hk : k ≠ b.key) :
    ∀ bs : List MonthBucket, b ∈ addToMonth bs k n f fu → b ∈ bs := by
  intro bs
  induction bs with
  | nil => intro h; simpa [addToMonth] using h
  | cons c rest ih =>
    intro h
    by_cases hc : c.key = k
    · simp only [addToMonth, hc, if_pos rfl] at h
      rcases List.mem_cons.1 h with h0 | h0
      · exact absurd (congrArg MonthBucket.key h0).symm (by simpa [hc] using hk)
      · exact List.mem_cons_of_mem c h0
    · simp only [addToMonth, hc, if_false] at h
      rcases List.mem_cons.1 h with h0 | h0
      · exact h0 ▸ List.mem_cons_self c rest
      · exact List.mem_cons_of_mem c (ih h0)

/-- Monthly analogue of `dayFold_sum`. -/
theorem monthFold_sum (trades : List Trade) :
    ∀ bs : List MonthBucket,
      ((trades.foldl (fun ms t =>
          addToMonth ms (tradeMonthKey t.datetime) t.netPnlUsd t.feesUsd t.fundingUsd) bs).map
            MonthBucket.net).sum
        = (bs.map MonthBucket.net).sum
          + ((trades.filter (fun t =>
              tradeMonthKey t.datetime ∈ bs.map MonthBucket.key)).map Trade.netPnlUsd).sum := by
  induction trades with
  | nil => intro bs; simp
  | cons t rest ih =>
    intro bs
    have hkeys := addToMonth_keys (tradeMonthKey t.datetime) t.netPnlUsd t.feesUsd t.fundingUsd bs
    have hstep := addToMonth_sum (tradeMonthKey t.datetime) t.netPnlUsd t.feesUsd t.fundingUsd bs
    simp only [List.foldl_cons]
    rw [ih (addToMonth bs (tradeMonthKey t.datetime) t.netPnlUsd t.feesUsd t.fundingUsd),
      hstep, hkeys, List.filter_cons]
    by_cases hmem : tradeMonthKey t.datetime ∈ bs.map MonthBucket.key
    · rw [if_pos hmem, if_pos (by simpa using hmem)]
      simp only [List.map_cons, List.sum_cons]
      ring
    · rw [if_neg hmem, if_neg (by simpa using hmem)]
      ring

/-- Monthly analogue of `dayFold_untouched`. -/
theorem monthFold_untouched (trades : List Trade) :
    ∀ bs b, b ∈ trades.foldl (fun ms t =>
        addToMonth ms (tradeMonthKey t.datetime) t.netPnlUsd t.feesUsd t.fundingUsd) bs →
      (∀ t ∈ trades, tradeMonthKey t.datetime ≠ b.key) → b ∈ bs := by
  induction trades with
  | nil => intro bs b hb _; exact hb
  | cons t rest ih =>
    intro bs b hb hne
    have h1 := ih _ b hb (fun x hx => hne x (by simp [hx]))
    exact mem_addToMonth_of_ne _ _ _ _ b (hne t (by simp)) bs h1

/-- Every pre-populated month bucket starts at net 0. -/
theorem monthInit_net_zero (y m0 : Int) : ∀ b ∈ monthInit y m0, b.net = 0 := by
  intro b hb
  rcases List.mem_map.1 hb with ⟨j, _, rfl⟩
  rfl

/-- Monthly analogue of `addToDay_length`. -/
theorem addToMonth_length (k : String) (n f fu : ℚ) :
    ∀ bs : List MonthBucket, (addToMonth bs k n f fu).length = bs.length := by
  intro bs
  induction bs with
  | nil => rfl
  | cons b rest ih =>
    by_cases hk : b.key = k <;> simp [addToMonth, hk, ih]

/-- Monthly analogue of `dayFold_length`. -/
theorem monthFold_length (trades : List Trade) :
    ∀ bs : List MonthBucket,
      (trades.foldl (fun ms t =>
        addToMonth ms (tradeMonthKey t.datetime) t.netPnlUsd t.feesUsd t.fundingUsd) bs).length
        = bs.length := by
  induction trades with
  | nil => intro bs; rfl
  | cons t rest ih =>
    intro bs
    simp only [List.foldl_cons]
    rw [ih, addToMonth_length]

/-- C7: bucket conservation.  For every entry list and reference instant
(given by its UTC calendar components), the sum of the per-bucket nets over
the trailing-`n`-day (resp. trailing-12-month) buckets equals the sum of
`netPnlUsd` over exactly those entries whose day key (resp. month key) lies
among the covered bucket keys; entries outside the window contribute to no
bucket; there is one bucket per covered period, pre-populated with zero, so a
period no entry touches still appears with net 0. -/
theorem timeBuckets_conservation :
    (∀ (trades : List Trade) (y m0 d : Int) (n : Nat),
      ((dailyBuckets trades y m0 d n).map DayBucket.net).sum
        = ((trades.filter (fun t =>
            tradeDayKey t.datetime ∈ (dayInit y m0 d n).map DayBucket.key)).map
              Trade.netPnlUsd).sum
      ∧ (dailyBuckets trades y m0 d n).length = n
      ∧ (dailyBuckets trades y m0 d n).map DayBucket.key = (dayInit y m0 d n).map DayBucket.key
      ∧ ∀ b ∈ dailyBuckets trades y m0 d n,
          (∀ t ∈ trades, tradeDayKey t.datetime ≠ b.key) → b.net = 0)
    ∧ (∀ (trades : List Trade) (y m0 : Int),
      ((monthlyBuckets trades y m0).map MonthBucket.net).sum
        = ((trades.filter (fun t =>
            tradeMonthKey t.datetime ∈ (monthInit y m0).map MonthBucket.key)).map
              Trade.netPnlUsd).sum
      ∧ (monthlyBuckets trades y m0).length = 12
      ∧ (monthlyBuckets trades y m0).map MonthBucket.key = (monthInit y m0).map MonthBucket.key
      ∧ ∀ b ∈ monthlyBuckets trades y m0,
          (∀ t ∈ trades, tradeMonthKey t.datetime ≠ b.key) → b.net = 0) := by
  constructor
  · intro trades y m0 d n
    have hzero : ((dayInit y m0 d n).map DayBucket.net).sum = 0 := by
      apply List.sum_eq_zero
      intro q hq
      rcases List.mem_map.1 hq with ⟨b, hb, rfl⟩
      exact dayInit_net_zero y m0 d n b hb
    have hkeys : ∀ bs : List DayBucket,
        ((trades.foldl (fun bs t => addToDay bs (tradeDayKey t.datetime) t.netPnlUsd) bs).map
          DayBucket.key) = bs.map DayBucket.key := by
      induction trades with
      | nil => intro bs; rfl
      | cons t rest ih =>
        intro bs
        simp only [List.foldl_cons]
        rw [ih, addToDay_keys]
    refine ⟨?_, ?_, hkeys (dayInit y m0 d n), ?_⟩
    · rw [dailyBuckets, dayFold_sum trades (dayInit y m0 d n), hzero, zero_add]
    · rw [dailyBuckets, dayFold_length trades (dayInit y m0 d n),
        dayInit, List.length_map, List.length_range]
    · intro b hb hne
      have hbi : b ∈ dayInit y m0 d n :=
        dayFold_untouched trades (dayInit y m0 d n) b hb hne
      exact dayInit_net_zero y m0 d n b hbi
  · intro trades y m0
    have hzero : ((monthInit y m0).map MonthBucket.net).sum = 0 := by
      apply List.sum_eq_zero
      intro q hq
      rcases List.mem_map.1 hq with ⟨b, hb, rfl⟩
      exact monthInit_net_zero y m0 b hb
    have hkeys : ∀ bs : List MonthBucket,
        ((trades.foldl (fun ms t =>
          addToMonth ms (tradeMonthKey t.datetime) t.netPnlUsd t.feesUsd t.fundingUsd) bs).map
            MonthBucket.key) = bs.map MonthBucket.key := by
      induction trades with
      | nil => intro bs; rfl
      | cons t rest ih =>
        intro bs
        simp only [List.foldl_cons]
        rw [ih, addToMonth_keys]
    refine ⟨?_, ?_, hkeys (monthInit y m0), ?_⟩
    · rw [monthlyBuckets, monthFold_sum trades (monthInit y m0), hzero, zero_add]
    · rw [monthlyBuckets, monthFold_length trades (monthInit y m0),
        monthInit, List.length_map]
      rfl
    · intro b hb hne
      have hbi : b ∈ monthInit y m0 :=
        monthFold_untouched trades (monthInit y m0) b hb hne
      exact monthInit_net_zero y m0 b hbi

/-- The first bucket of a concrete empty-ledger daily bucketing. -/
def dayBucketW : DayBucket :=
  (dailyBuckets [] 2024 0 15 30).headD { key := "", label := "", net := 0 }

/-- C7 witness: the conservation theorem applied at a concrete reference
instant — on an empty ledger every pre-populated bucket (here the first of
the 30) carries net 0. -/
theorem timeBuckets_conservation_witness :
    dayBucketW ∈ dailyBuckets [] 2024 0 15 30 ∧ dayBucketW.net = 0 := by
  have hl : dailyBuckets [] 2024 0 15 30
      = dayBucketW :: (dailyBuckets [] 2024 0 15 30).tail := rfl
  have hmem : dayBucketW ∈ dailyBuckets [] 2024 0 15 30 := by
    rw [hl]
    exact List.mem_cons_self _ _
  refine ⟨hmem, (timeBuckets_conservation.1 [] 2024 0 15 30).2.2.2 dayBucketW hmem ?_⟩
  intro t ht
  simp at ht

/-! ### C9: export → parse round trip

The proof walks the parser state machine through one exported cell, one
exported line, and the joined lines. -/

/-- Step: a plain character inside quotes is appended to the field. -/
theorem pca_quoted_char (a : Char) (ha : (a == '"') = false) (Y field : List Char)
    (row : List (List Char)) (rows : List (List (List Char))) :
    parseCsvAux (a :: Y) true field row rows = parseCsvAux Y true (field ++ [a]) row rows := by
  cases Y with
  | nil => rw [parseCsvAux.eq_2]; simp [ha]
  | cons y t => rw [parseCsvAux.eq_3]; simp [ha]

/-- Step: a doubled quote inside quotes appends one literal quote. -/
theorem pca_double_quote (Z field : List Char)
    (row : List (List Char)) (rows : List (List (List Char))) :
    parseCsvAux ('"' :: '"' :: Z) true field row rows
      = parseCsvAux Z true (field ++ ['"']) row rows := by
  rw [parseCsvAux.eq_3]
  simp

/-- Step: an opening quote outside quotes enters quoted state. -/
theorem pca_open_quote (Y field : List Char)
    (row : List (List Char)) (rows : List (List (List Char))) :
    parseCsvAux ('"' :: Y) false field row rows = parseCsvAux Y true field row rows := by
  cases Y with
  | nil => rw [parseCsvAux.eq_2]; simp
  | cons y t => rw [parseCsvAux.eq_3]; simp

/-- Step: a comma outside quotes closes the field. -/
theorem pca_comma (Y field : List Char)
    (row : List (List Char)) (rows : List (List (List Char))) :
    parseCsvAux (',' :: Y) false field row rows
      = parseCsvAux Y false [] (row ++ [field]) rows := by
  cases Y with
  | nil => rw [parseCsvAux.eq_2]; simp
  | cons y t => rw [parseCsvAux.eq_3]; simp

/-- Step: a newline outside quotes closes the row. -/
theorem pca_newline (Y field : List Char)
    (row : List (List Char)) (rows : List (List (List Char))) :
    parseCsvAux ('\n' :: Y) false field row rows
      = parseCsvAux Y false [] [] (rows ++ [row ++ [field]]) := by
  cases Y with
  | nil => rw [parseCsvAux.eq_2]; simp
  | cons y t => rw [parseCsvAux.eq_3]; simp

/-- Processing an escaped cell body inside quotes: the parser un-doubles the
quotes, accumulates exactly the original text onto the current field, and
exits quoted state at the closing quote (whose follower is never another
quote in exported text). -/
theorem parseCsvAux_escaped (s : List Char) :
    ∀ (rest field : List Char) (row : List (List Char)) (rows : List (List (List Char))),
      rest.head? ≠ some '"' →
      parseCsvAux (escQuotes s ++ '"' :: rest) true field row rows
        = parseCsvAux rest false (field ++ s) row rows := by
  induction s with
  | nil =>
    intro rest field row rows hr
    cases rest with
    | nil =>
      rw [show escQuotes [] ++ '"' :: ([] : List Char) = ['"'] from rfl, parseCsvAux.eq_2]
      simp [parseCsvAux.eq_1]
    | cons r0 rest2 =>
      have hr0 : (r0 == '"') = false := by
        simp only [beq_eq_false_iff_ne, ne_eq]
        intro h
        exact hr (by simp [h])
      rw [show escQuotes [] ++ '"' :: r0 :: rest2 = '"' :: r0 :: rest2 from rfl,
        parseCsvAux.eq_3]
      simp [hr0]
  | cons a s2 ih =>
    intro rest field row rows hr
    by_cases ha : a = '"'
    · subst ha
      rw [show escQuotes ('"' :: s2) ++ '"' :: rest
          = '"' :: '"' :: (escQuotes s2 ++ '"' :: rest) from by simp [escQuotes]]
      rw [pca_double_quote, ih rest (field ++ ['"']) row rows hr]
      simp
    · have hbe : (a == '"') = false := by simp [ha]
      rw [show escQuotes (a :: s2) ++ '"' :: rest
          = a :: (escQuotes s2 ++ '"' :: rest) from by simp [escQuotes, hbe]]
      rw [pca_quoted_char a hbe, ih rest (field ++ [a]) row rows hr]
      simp



/-- Processing one quoted cell from the unquoted state appends the cell text
to the current field. -/
theorem parseCsvAux_quotedCell (s : String) (rest field : List Char)
    (row : List (List Char)) (rows : List (List (List Char)))
    (hr : rest.head? ≠ some '"') :
    parseCsvAux ('"' :: (escQuotes s.data ++ '"' :: rest)) false field row rows
      = parseCsvAux rest false (field ++ s.data) row rows := by
  rw [pca_open_quote, parseCsvAux_escaped s.data rest field row rows hr]

/-- Step: an ordinary character outside quotes is appended to the field. -/
theorem pca_plain (a : Char) (h1 : (a == '"') = false) (h2 : (a == ',') = false)
    (h3 : (a == '\n') = false) (h4 : (a == '\r') = false) (Y field : List Char)
    (row : List (List Char)) (rows : List (List (List Char))) :
    parseCsvAux (a :: Y) false field row rows
      = parseCsvAux Y false (field ++ [a]) row rows := by
  cases Y with
  | nil => rw [parseCsvAux.eq_2]; simp [h1, h2, h3, h4]
  | cons y t => rw [parseCsvAux.eq_3]; simp [h1, h2, h3, h4]

/-- A run of ordinary characters outside quotes lands in the field
verbatim. -/
theorem pca_run (s : List Char)
    (hs : ∀ c ∈ s, (c == '"') = false ∧ (c == ',') = false
      ∧ (c == '\n') = false ∧ (c == '\r') = false) :
    ∀ (rest field : List Char) (row : List (List Char)) (rows : List (List (List Char))),
      parseCsvAux (s ++ rest) false field row rows
        = parseCsvAux rest false (field ++ s) row rows := by
  induction s with
  | nil => intro rest field row rows; simp
  | cons a s2 ih =>
    intro rest field row rows
    have ha := hs a (by simp)
    rw [List.cons_append, pca_plain a ha.1 ha.2.1 ha.2.2.1 ha.2.2.2,
      ih (fun c hc => hs c (by simp [hc])) rest (field ++ [a]) row rows]
    simp

/-- An unquoted line of safe cell texts joined by commas, terminated by a
newline, parses to one row holding exactly those cells. -/
theorem pca_namesChars (names : List (List Char)) :
    (∀ n ∈ names, ∀ c ∈ n, (c == '"') = false ∧ (c == ',') = false
      ∧ (c == '\n') = false ∧ (c == '\r') = false) →
    names ≠ [] →
    ∀ (rest : List Char) (row : List (List Char)) (rows : List (List (List Char))),
      parseCsvAux ((List.intersperse [','] names).flatten ++ '\n' :: rest) false [] row rows
        = parseCsvAux rest false [] [] (rows ++ [row ++ names]) := by
  induction names with
  | nil => intro _ h; exact absurd rfl h
  | cons n ns ih =>
    intro hsafe _ rest row rows
    cases ns with
    | nil =>
      rw [show (List.intersperse [','] [n]).flatten = n ++ [] from by simp, List.append_nil]
      rw [pca_run n (hsafe n (by simp)) ('\n' :: rest) [] row rows, pca_newline]
      simp
    | cons n2 ns2 =>
      rw [show (List.intersperse [','] (n :: n2 :: ns2)).flatten
          = n ++ ',' :: (List.intersperse [','] (n2 :: ns2)).flatten from by
        simp [List.intersperse]]
      rw [List.append_assoc, pca_run n (hsafe n (by simp)) _ [] row rows]
      rw [show ((',' :: (List.intersperse [','] (n2 :: ns2)).flatten) ++ '\n' :: rest)
          = ',' :: ((List.intersperse [','] (n2 :: ns2)).flatten ++ '\n' :: rest) from rfl]
      rw [pca_comma]
      rw [ih (fun x hx => hsafe x (by simp [hx])) (by simp) rest (row ++ [[] ++ n]) rows]
      simp

/-- One-cell export line. -/
theorem exportLine_singleton (c : String) : exportLine [c] = quoteCell c := by
  simp [exportLine]

/-- Multi-cell export line: first quoted cell, a comma, then the rest. -/
theorem exportLine_cons (c c2 : String) (cs : List String) :
    exportLine (c :: c2 :: cs) = quoteCell c ++ ',' :: exportLine (c2 :: cs) := by
  simp [exportLine, List.intersperse]

/-- A full exported data line followed by a newline parses to one row holding
the original cell texts. -/
theorem parseCsvAux_row (cells : List String) :
    cells ≠ [] →
    ∀ (rest2 : List Char) (row : List (List Char)) (rows : List (List (List Char))),
      parseCsvAux (exportLine cells ++ '\n' :: rest2) false [] row rows
        = parseCsvAux rest2 false [] [] (rows ++ [row ++ cells.map String.data]) := by
  induction cells with
  | nil => intro h; exact absurd rfl h
  | cons c cs ih =>
    intro _ rest2 row rows
    cases cs with
    | nil =>
      rw [exportLine_singleton,
        show quoteCell c ++ '\n' :: rest2
          = '"' :: (escQuotes c.data ++ '"' :: ('\n' :: rest2)) from by
            simp [quoteCell],
        parseCsvAux_quotedCell c ('\n' :: rest2) [] row rows (by simp),
        pca_newline]
      simp
    | cons c2 cs2 =>
      rw [exportLine_cons,
        show (quoteCell c ++ ',' :: exportLine (c2 :: cs2)) ++ '\n' :: rest2
          = '"' :: (escQuotes c.data
              ++ '"' :: (',' :: (exportLine (c2 :: cs2) ++ '\n' :: rest2))) from by
            simp [quoteCell],
        parseCsvAux_quotedCell c _ [] row rows (by simp),
        pca_comma,
        ih (by simp) rest2 (row ++ [[] ++ c.data]) rows]
      simp

/-- The final exported data line (no trailing newline): the flush at end of
input emits the row, because the accumulated row is never a lone empty
field. -/
theorem parseCsvAux_lastRow (cells : List String) :
    cells ≠ [] →
    ∀ (row : List (List Char)) (rows : List (List (List Char))),
      2 ≤ row.length + cells.length →
      parseCsvAux (exportLine cells) false [] row rows
        = rows ++ [row ++ cells.map String.data] := by
  induction cells with
  | nil => intro h; exact absurd rfl h
  | cons c cs ih =>
    intro _ row rows hlen
    cases cs with
    | nil =>
      rw [exportLine_singleton,
        show quoteCell c = '"' :: (escQuotes c.data ++ '"' :: ([] : List Char)) from by
          simp [quoteCell],
        parseCsvAux_quotedCell c [] [] row rows (by simp),
        parseCsvAux.eq_1]
      have hrow : row.length ≠ 0 := by
        simp at hlen
        omega
      simp [hrow]
    | cons c2 cs2 =>
      rw [exportLine_cons,
        show quoteCell c ++ ',' :: exportLine (c2 :: cs2)
          = '"' :: (escQuotes c.data ++ '"' :: (',' :: exportLine (c2 :: cs2))) from by
            simp [quoteCell],
        parseCsvAux_quotedCell c _ [] row rows (by simp),
        pca_comma,
        ih (by simp) (row ++ [[] ++ c.data]) rows (by
          simp
          omega)]
      simp

/-- The joined exported data lines parse to exactly the original rows of cell
texts, appended to whatever rows were already emitted. -/
theorem pca_body (rowsList : List (List String)) :
    (∀ r ∈ rowsList, r.length = 13) →
    ∀ rows : List (List (List Char)),
      parseCsvAux (List.intersperse ['\n'] (rowsList.map exportLine)).flatten false [] [] rows
        = rows ++ rowsList.map (fun r => r.map String.data) := by
  induction rowsList with
  | nil =>
    intro _ rows
    rw [show (List.intersperse ['\n'] (([] : List (List String)).map exportLine)).flatten
        = ([] : List Char) from rfl, parseCsvAux.eq_1]
    simp
  | cons r rs ih =>
    intro hlen rows
    have hr13 : r.length = 13 := hlen r (by simp)
    have hrne : r ≠ [] := by
      intro h
      rw [h] at hr13
      simp at hr13
    cases rs with
    | nil =>
      rw [show (List.intersperse ['\n'] ([r].map exportLine)).flatten = exportLine r from by
        simp]
      rw [parseCsvAux_lastRow r hrne [] rows (by simp [hr13])]
      simp
    | cons r2 rs2 =>
      rw [show (List.intersperse ['\n'] ((r :: r2 :: rs2).map exportLine)).flatten
          = exportLine r ++ '\n' :: (List.intersperse ['\n']
              ((r2 :: rs2).map exportLine)).flatten from by
        simp [List.intersperse]]
      rw [parseCsvAux_row r hrne _ [] rows,
        ih (fun x hx => hlen x (by simp [hx])) (rows ++ [[] ++ r.map String.data])]
      simp

/-- Rebuilding a string from its characters is the identity. -/
theorem stringMk_data (str : String) : String.mk str.data = str := rfl

/-- The number of export columns. -/
theorem tradeCells_length (t : Trade) : (tradeCells t).length = 13 := rfl

set_option maxRecDepth 100000 in
/-- C9: the export/import round trip.  Parsing the CSV text produced by the
export handler with the repository's CSV parser yields the fixed header row
followed by one row per stored entry, and every parsed field string equals
the string form of the exported field value — the universal quoting and
doubled-quote escaping are exactly inverted, including for values containing
commas, double quotes, or newlines. -/
theorem export_import_roundtrip (trades : List Trade) :
    parseCsv (exportCsv trades) = exportHeaders :: trades.map tradeCells := by
  have hheader : (String.intercalate "," exportHeaders).data
      = (List.intersperse [','] (exportHeaders.map String.data)).flatten := rfl
  have hsafe : ∀ n ∈ exportHeaders.map String.data, ∀ c ∈ n,
      (c == '"') = false ∧ (c == ',') = false ∧ (c == '\n') = false ∧ (c == '\r') = false := by
    decide
  have hcell : ∀ r : List String, (r.map String.data).map String.mk = r := by
    intro r
    induction r with
    | nil => rfl
    | cons a as iha => simp [iha, stringMk_data]
  have hwrap : ∀ L : List (List String),
      (L.map (fun r => r.map String.data)).map (fun r => r.map String.mk) = L := by
    intro L
    induction L with
    | nil => rfl
    | cons x xs ihx => simp only [List.map_cons, ihx, hcell x]
  cases trades with
  | nil =>
    have h0 : (exportCsv []).data = (String.intercalate "," exportHeaders).data := by
      simp [exportCsv]
    have h1 : parseCsvAux (exportCsv []).data false [] [] []
        = [exportHeaders.map String.data] := by
      rw [h0]
      rfl
    rw [parseCsv, h1]
    have h2 := hwrap [exportHeaders]
    simpa using h2
  | cons t ts =>
    have hsplit : (exportCsv (t :: ts)).data
        = (String.intercalate "," exportHeaders).data
          ++ '\n' :: (List.intersperse ['\n']
            ((t :: ts).map (fun tr => exportLine (tradeCells tr)))).flatten := by
      simp [exportCsv, List.intersperse]
    have hne : exportHeaders ≠ [] := by simp [exportHeaders]
    have hml : (t :: ts).map (fun tr => exportLine (tradeCells tr))
        = ((t :: ts).map tradeCells).map exportLine := by
      simp [List.map_map, Function.comp]
    have h13 : ∀ r ∈ (t :: ts).map tradeCells, r.length = 13 := by
      intro r hr
      rcases List.mem_map.1 hr with ⟨x, _, rfl⟩
      exact tradeCells_length x
    rw [parseCsv, hsplit, hheader,
      pca_namesChars (exportHeaders.map String.data) hsafe (by simp [exportHeaders]) _ [] [],
      hml, pca_body ((t :: ts).map tradeCells) h13 _]
    have h2 := hwrap (exportHeaders :: (t :: ts).map tradeCells)
    simpa using h2

end PnlTraden
